import Mathlib

/-!
Verification of the MP_REACH_NLRI attribute decoder of
src/Server/src/parseBgpLibMpReach.cpp (namespace parse_bgp_lib, class
MPReachAttr).

Modelling conventions:
* An input buffer is a total byte function `d : Nat → Nat`; every read goes
  through `byte`, which reduces modulo 256 (u_char semantics).  This mirrors
  the raw-pointer walk of the source: reads past the declared span return
  whatever the ambient memory holds, they are not trapped.
* `SWAP_BYTES` (declared in parseBgpLib.h, not under src) is the usual
  network-to-host byte reversal; `be32` and `wire24` model a memcpy of 4
  (resp. 3 into a zeroed 4-byte union) bytes followed by that swap on a
  little-endian host.
* `parser->getAddpathCapability` and `inet_ntop` are external collaborators
  (capability registry, libc); they are passed in as function parameters
  `ap` and `ntop`.  `inet_ntop4` models the AF_INET formatting of glibc
  ("%u.%u.%u.%u" over the first 4 buffer bytes) for claims that mention the
  rendered IPv4 text.
* The C for-loops are written as fuel recursion; the fuel passed by the
  top-level entry points (the declared length, resp. the address byte count)
  is proven sufficient because every iteration consumes at least one byte
  (resp. three), so the fuel never cuts a run short.
* Enum constants (BGP_AFI_*, BGP_SAFI_*, LIB_ATTR_NEXT_HOP, ...) live in the
  missing header parseBgpLib.h; the AFI/SAFI codepoints are the IANA values
  the source compares against, the attribute-map key is an arbitrary fixed
  slot used consistently.
-/

def BGP_AFI_IPV4 : Nat := 1

def BGP_AFI_IPV6 : Nat := 2

def BGP_AFI_BGPLS : Nat := 16388

def BGP_SAFI_UNICAST : Nat := 1

def BGP_SAFI_NLRI_LABEL : Nat := 4

def NLRI_TYPE_NONE : Nat := 0

def ATTR_TYPE_NEXT_HOP : Nat := 3

def LIB_ATTR_NEXT_HOP : Nat := 8

/-- A byte read from the ambient memory model (u_char semantics). -/
def byte (d : Nat → Nat) (i : Nat) : Nat := d i % 256

/-- memcpy of 4 bytes into a uint32 followed by SWAP_BYTES on a little-endian
host: the big-endian (network order) value of the 4 bytes at offset `i`. -/
def be32 (d : Nat → Nat) (i : Nat) : Nat :=
  byte d i * 16777216 + byte d (i + 1) * 65536 + byte d (i + 2) * 256 + byte d (i + 3)

/-- memcpy of 3 bytes into a zeroed 4-byte union: the big-endian value of the
3 bytes at offset `i`.  After SWAP_BYTES the union's uint32 view equals
`wire24 d i * 256`. -/
def wire24 (d : Nat → Nat) (i : Nat) : Nat :=
  byte d i * 65536 + byte d (i + 1) * 256 + byte d (i + 2)

/-- One entry of update.nlri_list: struct parse_bgp_lib_nlri.  The nlri
member is a map from field enum to list of strings; only the five fields this
file pushes into are modelled.  LIB_NLRI_PREFIX_BIN holds raw bytes
(std::string over u_char), kept here as a byte list. -/
structure ParseBgpLibNlri where
  afi : Nat
  safi : Nat
  type : Nat
  pathId : List String
  prefixLength : List String
  prefixText : List String
  prefixBin : List (List Nat)
  labels : List String
deriving Repr, DecidableEq, Inhabited

/-- One value of update.attrs: struct parse_bgp_lib_attrs. -/
structure UpdateAttr where
  official_type : Nat
  attr_name : String
  attr_value : List String
deriving Repr, DecidableEq, Inhabited

/-- struct parsed_update: attribute map (std::map operator[] semantics,
default-constructed entries) plus the NLRI list the decoders append to. -/
structure ParsedUpdate where
  attrs : Nat → UpdateAttr
  nlri_list : List ParseBgpLibNlri

/-- addr_bytes = prefix_len / 8; if (prefix_len % 8) ++addr_bytes; -/
def addrBytesOf (prefix_len : Nat) : Nat :=
  prefix_len / 8 + (if prefix_len % 8 ≠ 0 then 1 else 0)

/-- The 16-byte ip_raw buffer after bzero and memcpy(ip_raw, data+start, ab):
byte i is the input byte for i < ab and 0 (zero-initialized) otherwise. -/
def ipRaw16 (d : Nat → Nat) (start ab : Nat) : List Nat :=
  (List.range 16).map (fun i => if i < ab then byte d (start + i) else 0)

/-- glibc inet_ntop(AF_INET, buf, ...): dotted-quad text of the first 4
buffer bytes. -/
def inet_ntop4 (b : List Nat) : String :=
  toString (b.getD 0 0) ++ "." ++ toString (b.getD 1 0) ++ "." ++
  toString (b.getD 2 0) ++ "." ++ toString (b.getD 3 0)

/-- The fresh working entry of parseNlriData_IPv4IPv6 /
parseNlriData_LabelIPv4IPv6: afi/safi/type set, all field lists empty. -/
def initNlri (isIPv4 : Bool) (safi : Nat) : ParseBgpLibNlri :=
  { afi := if isIPv4 then BGP_AFI_IPV4 else BGP_AFI_IPV6
    safi := safi
    type := NLRI_TYPE_NONE
    pathId := []
    prefixLength := []
    prefixText := []
    prefixBin := []
    labels := [] }

/-- Body of one iteration of the unicast prefix loop, after the add-path
branch decided the path id `pid` and the position `posL` of the
prefix-length byte: push path id, prefix length, rendered prefix and
4-byte binary prefix onto the working entry. -/
def uIterEntry (isIPv4 : Bool) (ntop : Bool → List Nat → String) (d : Nat → Nat)
    (pid posL : Nat) (nlri : ParseBgpLibNlri) : ParseBgpLibNlri :=
  { nlri with
    pathId := nlri.pathId ++ [toString pid]
    prefixLength := nlri.prefixLength ++ [toString (byte d posL)]
    prefixText := nlri.prefixText ++
      [ntop isIPv4 (ipRaw16 d (posL + 1) (addrBytesOf (byte d posL)))]
    prefixBin := nlri.prefixBin ++
      [(ipRaw16 d (posL + 1) (addrBytesOf (byte d posL))).take 4] }

/-- for (size_t read_size=0; read_size < len; read_size++) of
parseNlriData_IPv4IPv6, as fuel recursion.  Each iteration: optional 4-byte
path id (when the capability is negotiated and at least 4 bytes remain),
1 prefix-length byte, addr_bytes address bytes; the for-increment accounts
for the length byte in read_size. -/
def unicastLoopF (isIPv4 : Bool) (ap : Nat → Nat → Bool) (ntop : Bool → List Nat → String)
    (d : Nat → Nat) (len : Nat) : Nat → Nat → Nat → ParseBgpLibNlri → List ParseBgpLibNlri
  | 0, _, _, _ => []
  | fuel + 1, pos, rs, nlri =>
    if rs < len then
      let usePath : Bool := ap nlri.afi nlri.safi && decide (4 ≤ len - rs)
      let pid := if usePath then be32 d pos else 0
      let posL := if usePath then pos + 4 else pos
      let rs1 := if usePath then rs + 4 else rs
      let ab := addrBytesOf (byte d posL)
      let nlri1 := uIterEntry isIPv4 ntop d pid posL nlri
      nlri1 :: unicastLoopF isIPv4 ap ntop d len fuel (posL + 1 + ab) (rs1 + ab + 1) nlri1
    else []

/-- MPReachAttr::parseNlriData_IPv4IPv6.  Returns the entries appended to the
caller's nlri_list (the source pushes them into a list reference). -/
def parseNlriData_IPv4IPv6 (isIPv4 : Bool) (ap : Nat → Nat → Bool)
    (ntop : Bool → List Nat → String) (d : Nat → Nat) (len : Nat) : List ParseBgpLibNlri :=
  if len = 0 then []
  else unicastLoopF isIPv4 ap ntop d len len 0 0 (initNlri isIPv4 BGP_SAFI_UNICAST)

/-- State threaded through the label while-loop of
parseNlriData_LabelIPv4IPv6: data position, remaining addr_bytes, read_size,
the u_char prefix_len counter and the working entry. -/
structure LabelLoopSt where
  pos : Nat
  ab : Nat
  rs : Nat
  pl : Nat
  e : ParseBgpLibNlri
deriving Repr, DecidableEq, Inhabited

/-- while (addr_bytes >= 3): read one 3-octet label, subtract 24 from the
u_char prefix_len (8-bit wraparound), push the post-subtraction length and
the 20-bit label value, and stop on bottom-of-stack (LSB of the third octet)
or the raw 32-bit union value 0x80000000 (the withdrawn-label sentinel). -/
def labelLoopF (d : Nat → Nat) : Nat → Nat → Nat → Nat → Nat → ParseBgpLibNlri → LabelLoopSt
  | 0, pos, ab, rs, pl, e => ⟨pos, ab, rs, pl, e⟩
  | fuel + 1, pos, ab, rs, pl, e =>
    if 3 ≤ ab then
      let w := wire24 d pos
      let pl1 := (pl + 256 - 24) % 256
      let e1 := { e with
        prefixLength := e.prefixLength ++ [toString pl1]
        labels := e.labels ++ [toString (w / 16)] }
      if w % 2 = 1 ∨ w * 256 = 2147483648 then
        ⟨pos + 3, ab - 3, rs + 3, pl1, e1⟩
      else
        labelLoopF d fuel (pos + 3) (ab - 3) (rs + 3) pl1 e1
    else ⟨pos, ab, rs, pl, e⟩

/-- Body of one iteration of the labeled prefix loop after the add-path
branch: push the path id, read the combined prefix-length byte at `posL`,
run the label loop, then copy the remaining addr_bytes into the zeroed
16-byte buffer and push the rendered and binary prefix. -/
def lIterEntry (isIPv4 : Bool) (ntop : Bool → List Nat → String) (d : Nat → Nat)
    (pid posL rsL : Nat) (nlri : ParseBgpLibNlri) : ParseBgpLibNlri :=
  let nlri0 := { nlri with pathId := nlri.pathId ++ [toString pid] }
  let pl := byte d posL
  let ab := addrBytesOf pl
  let st := labelLoopF d ab (posL + 1) ab rsL pl nlri0
  let raw := ipRaw16 d st.pos st.ab
  { st.e with
    prefixText := st.e.prefixText ++ [ntop isIPv4 raw]
    prefixBin := st.e.prefixBin ++ [raw.take 4] }

/-- for (size_t read_size = 0; read_size < len; read_size++) of
parseNlriData_LabelIPv4IPv6.  `parsed_bytes` is initialized to 0 and never
changed in the source, so its break test is `0 = len`. -/
def labeledLoopF (isIPv4 : Bool) (ap : Nat → Nat → Bool) (ntop : Bool → List Nat → String)
    (d : Nat → Nat) (len : Nat) : Nat → Nat → Nat → ParseBgpLibNlri → List ParseBgpLibNlri
  | 0, _, _, _ => []
  | fuel + 1, pos, rs, nlri =>
    if rs < len then
      let usePath : Bool := ap nlri.afi nlri.safi && decide (4 ≤ len - rs)
      let pid := if usePath then be32 d pos else 0
      let posL := if usePath then pos + 4 else pos
      let rsL := if usePath then rs + 4 else rs
      if (0 : Nat) = len then []
      else
        let st := labelLoopF d (addrBytesOf (byte d posL)) (posL + 1)
          (addrBytesOf (byte d posL)) rsL (byte d posL)
          { nlri with pathId := nlri.pathId ++ [toString pid] }
        let nlri1 := lIterEntry isIPv4 ntop d pid posL rsL nlri
        nlri1 :: labeledLoopF isIPv4 ap ntop d len fuel (st.pos + st.ab) (st.rs + st.ab + 1) nlri1
    else []

/-- MPReachAttr::parseNlriData_LabelIPv4IPv6. -/
def parseNlriData_LabelIPv4IPv6 (isIPv4 : Bool) (ap : Nat → Nat → Bool)
    (ntop : Bool → List Nat → String) (d : Nat → Nat) (len : Nat) : List ParseBgpLibNlri :=
  if len = 0 then []
  else labeledLoopF isIPv4 ap ntop d len len 0 0 (initNlri isIPv4 BGP_SAFI_NLRI_LABEL)

/-- struct mp_reach_nlri (declared in the header): the decoded attribute
header.  next_hop and nlri_data are borrowed views into the input buffer. -/
structure MpReachNlri where
  afi : Nat
  safi : Nat
  nh_len : Nat
  next_hop : Nat → Nat
  reserved : Nat
  nlri_data : Nat → Nat
  nlri_len : Nat

/-- The 16-byte ip_raw buffer of parseAfi_IPv4IPv6 after bzero and the
next-hop memcpy: 16 bytes if nh_len > 16, else nh_len bytes, rest zero. -/
def nextHopRaw (nh : Nat → Nat) (nh_len : Nat) : List Nat :=
  (List.range 16).map
    (fun i => if i < (if 16 < nh_len then 16 else nh_len) then byte nh i else 0)

/-- MPReachAttr::parseAfi_IPv4IPv6: per SAFI, render the next hop, overwrite
attrs[LIB_ATTR_NEXT_HOP].official_type / attr_name, push_back the rendered
string onto attr_value, and append the decoded NLRI entries.  Unknown SAFIs
log and return the update untouched. -/
def parseAfi_IPv4IPv6 (ap : Nat → Nat → Bool) (ntop : Bool → List Nat → String)
    (isIPv4 : Bool) (nlri : MpReachNlri) (update : ParsedUpdate) : ParsedUpdate :=
  if nlri.safi = BGP_SAFI_UNICAST then
    let ip_char := ntop isIPv4 (nextHopRaw nlri.next_hop nlri.nh_len)
    let a := update.attrs LIB_ATTR_NEXT_HOP
    { attrs := fun k =>
        if k = LIB_ATTR_NEXT_HOP then
          { official_type := ATTR_TYPE_NEXT_HOP
            attr_name := "nextHop"
            attr_value := a.attr_value ++ [ip_char] }
        else update.attrs k
      nlri_list := update.nlri_list ++
        parseNlriData_IPv4IPv6 isIPv4 ap ntop nlri.nlri_data nlri.nlri_len }
  else if nlri.safi = BGP_SAFI_NLRI_LABEL then
    let ip_char := ntop isIPv4 (nextHopRaw nlri.next_hop nlri.nh_len)
    let a := update.attrs LIB_ATTR_NEXT_HOP
    { attrs := fun k =>
        if k = LIB_ATTR_NEXT_HOP then
          { official_type := ATTR_TYPE_NEXT_HOP
            attr_name := "nextHop"
            attr_value := a.attr_value ++ [ip_char] }
        else update.attrs k
      nlri_list := update.nlri_list ++
        parseNlriData_LabelIPv4IPv6 isIPv4 ap ntop nlri.nlri_data nlri.nlri_len }
  else update

/-- MPReachAttr::parseAfi: dispatch on AFI.  The BGP-LS arm is commented out
in the source (an empty block), other AFIs log and return; both leave the
update untouched. -/
def parseAfi (ap : Nat → Nat → Bool) (ntop : Bool → List Nat → String)
    (nlri : MpReachNlri) (update : ParsedUpdate) : ParsedUpdate :=
  if nlri.afi = BGP_AFI_IPV6 then parseAfi_IPv4IPv6 ap ntop false nlri update
  else if nlri.afi = BGP_AFI_IPV4 then parseAfi_IPv4IPv6 ap ntop true nlri update
  else update

/-- MPReachAttr::parseReachNlriAttr: strip AFI (2 bytes, swapped to host
order), SAFI, next-hop length, the next-hop bytes and the reserved octet;
`attr_len` is a C int, so the running remainder is an integer and the
length-mismatch guard is `attr_len < 0` after the header consumption.
nlri_len is stored in a uint16_t field. -/
def parseReachNlriAttr (ap : Nat → Nat → Bool) (ntop : Bool → List Nat → String)
    (attr_len : Int) (d : Nat → Nat) (update : ParsedUpdate) : ParsedUpdate :=
  let afi := byte d 0 * 256 + byte d 1
  let safi := byte d 2
  let nh_len := byte d 3
  let next_hop : Nat → Nat := fun i => d (4 + i)
  let reserved := byte d (4 + nh_len)
  let nlri_data : Nat → Nat := fun i => d (5 + nh_len + i)
  let rem : Int := attr_len - 2 - 1 - 1 - (nh_len : Int) - 1
  if rem < 0 then update
  else parseAfi ap ntop
    ⟨afi, safi, nh_len, next_hop, reserved, nlri_data, rem.toNat % 65536⟩ update

/-- A synthetic unicast NLRI body: each prefix is (bit length, address
bytes) and is laid out as the length byte followed by the address bytes. -/
def encodeUnicastNlri (ps : List (Nat × List Nat)) : List Nat :=
  (ps.map (fun p => p.1 :: p.2)).flatten

/-- Well-formed synthetic prefixes: the length fits a byte, the byte count
matches the bit length, at most 16 address bytes, and the bytes are bytes. -/
def wfUnicast (ps : List (Nat × List Nat)) : Prop :=
  ∀ p ∈ ps, p.1 < 256 ∧ p.2.length = addrBytesOf p.1 ∧ p.2.length ≤ 16 ∧
    ∀ b ∈ p.2, b < 256

instance : DecidablePred wfUnicast := fun ps => by
  unfold wfUnicast; infer_instance

/-- Zero-pad address bytes to the 16-byte buffer width. -/
def pad16 (bs : List Nat) : List Nat := bs ++ List.replicate (16 - bs.length) 0

/-- What one unicast iteration pushes for a synthetic prefix decoded with
add-path disabled. -/
def pushUnicast (isIPv4 : Bool) (ntop : Bool → List Nat → String)
    (nlri : ParseBgpLibNlri) (p : Nat × List Nat) : ParseBgpLibNlri :=
  { nlri with
    pathId := nlri.pathId ++ ["0"]
    prefixLength := nlri.prefixLength ++ [toString p.1]
    prefixText := nlri.prefixText ++ [ntop isIPv4 (pad16 p.2)]
    prefixBin := nlri.prefixBin ++ [(pad16 p.2).take 4] }

/-- The entry sequence the unicast decoder produces for a synthetic body:
the working entry accumulates across prefixes. -/
def entriesSpecU (isIPv4 : Bool) (ntop : Bool → List Nat → String) :
    ParseBgpLibNlri → List (Nat × List Nat) → List ParseBgpLibNlri
  | _, [] => []
  | nlri, p :: ps =>
    let e := pushUnicast isIPv4 ntop nlri p
    e :: entriesSpecU isIPv4 ntop e ps

/-- Sanity check: the spec's end-to-end example NLRI body [24, 192, 168, 1]
decodes to one 192.168.1.0/24 entry with path id 0. -/
lemma end_to_end_example : parseNlriData_IPv4IPv6 true (fun _ _ => false)
    (fun v4 b => if v4 then inet_ntop4 b else ("")) (fun i => [24, 192, 168, 1].getD i 0) 4
    = [{ afi := 1, safi := 1, type := 0, pathId := ["0"], prefixLength := ["24"],
         prefixText := ["192.168.1.0"], prefixBin := [[192, 168, 1, 0]], labels := [] }] := by
  decide

/-- Stop condition of the label while-loop: bottom-of-stack bit (LSB of the
third wire octet) set, or the 32-bit union view equal to the withdrawn-label
sentinel 0x80000000. -/
def labelStop (w : Nat) : Prop := w % 2 = 1 ∨ w * 256 = 2147483648

instance : DecidablePred labelStop := fun w => by
  unfold labelStop; infer_instance

lemma getLast?_append_singleton {α : Type} (l : List α) (a : α) :
    (l ++ [a]).getLast? = some a := by
  rw [List.getLast?_concat]

lemma unicastLoopF_step (isIPv4 : Bool) (ap : Nat → Nat → Bool)
    (ntop : Bool → List Nat → String) (d : Nat → Nat) (len fuel pos rs : Nat)
    (nlri : ParseBgpLibNlri) (h : rs < len) :
    unicastLoopF isIPv4 ap ntop d len (fuel + 1) pos rs nlri =
      (let usePath : Bool := ap nlri.afi nlri.safi && decide (4 ≤ len - rs)
       let pid := if usePath then be32 d pos else 0
       let posL := if usePath then pos + 4 else pos
       let rs1 := if usePath then rs + 4 else rs
       let ab := addrBytesOf (byte d posL)
       let nlri1 := uIterEntry isIPv4 ntop d pid posL nlri
       nlri1 :: unicastLoopF isIPv4 ap ntop d len fuel (posL + 1 + ab) (rs1 + ab + 1) nlri1) := by
  rw [unicastLoopF, if_pos h]

lemma labeledLoopF_step (isIPv4 : Bool) (ap : Nat → Nat → Bool)
    (ntop : Bool → List Nat → String) (d : Nat → Nat) (len fuel pos rs : Nat)
    (nlri : ParseBgpLibNlri) (h : rs < len) :
    labeledLoopF isIPv4 ap ntop d len (fuel + 1) pos rs nlri =
      (let usePath : Bool := ap nlri.afi nlri.safi && decide (4 ≤ len - rs)
       let pid := if usePath then be32 d pos else 0
       let posL := if usePath then pos + 4 else pos
       let rsL := if usePath then rs + 4 else rs
       let st := labelLoopF d (addrBytesOf (byte d posL)) (posL + 1)
         (addrBytesOf (byte d posL)) rsL (byte d posL)
         { nlri with pathId := nlri.pathId ++ [toString pid] }
       let nlri1 := lIterEntry isIPv4 ntop d pid posL rsL nlri
       nlri1 :: labeledLoopF isIPv4 ap ntop d len fuel (st.pos + st.ab) (st.rs + st.ab + 1) nlri1) := by
  rw [labeledLoopF, if_pos h, if_neg (by omega)]

lemma labelLoopF_rs_le (d : Nat → Nat) :
    ∀ (fuel pos ab rs pl : Nat) (e : ParseBgpLibNlri),
      rs ≤ (labelLoopF d fuel pos ab rs pl e).rs := by
  intro fuel
  induction fuel with
  | zero => intro pos ab rs pl e; simp [labelLoopF]
  | succ n ih =>
    intro pos ab rs pl e
    rw [labelLoopF]
    by_cases hab : 3 ≤ ab
    · rw [if_pos hab]
      by_cases hstop : wire24 d pos % 2 = 1 ∨ wire24 d pos * 256 = 2147483648
      · simp only [hstop, if_true]; omega
      · simp only [hstop, if_false]
        exact le_trans (by omega) (ih (pos + 3) (ab - 3) (rs + 3) _ _)
    · rw [if_neg hab]

lemma cons_map_range {α : Type} (f g : Nat → α) (a : α) (k : Nat)
    (h0 : a = f 0) (hs : ∀ j, g j = f (j + 1)) :
    a :: (List.range k).map g = (List.range (k + 1)).map f := by
  rw [List.range_succ_eq_map, List.map_cons, List.map_map, h0]
  have hg : g = f ∘ Nat.succ := funext hs
  rw [hg]

lemma labelLoopF_spec (d : Nat → Nat) :
    ∀ (fuel pos ab rs pl : Nat) (e : ParseBgpLibNlri),
      ∃ k : Nat,
        (labelLoopF d fuel pos ab rs pl e).e.labels =
          e.labels ++ (List.range k).map (fun j => toString (wire24 d (pos + 3 * j) / 16)) ∧
        (labelLoopF d fuel pos ab rs pl e).e.prefixLength =
          e.prefixLength ++ (List.range k).map (fun j => toString ((pl + 232 * (j + 1)) % 256)) ∧
        (labelLoopF d fuel pos ab rs pl e).pl = (if k = 0 then pl else (pl + 232 * k) % 256) ∧
        (labelLoopF d fuel pos ab rs pl e).pos = pos + 3 * k ∧
        (labelLoopF d fuel pos ab rs pl e).rs = rs + 3 * k ∧
        (labelLoopF d fuel pos ab rs pl e).ab = ab - 3 * k ∧
        3 * k ≤ ab ∧
        (∀ j, j + 1 < k → ¬ labelStop (wire24 d (pos + 3 * j))) ∧
        (ab ≤ 3 * fuel →
          (3 ≤ ab → 1 ≤ k) ∧
          (1 ≤ k → labelStop (wire24 d (pos + 3 * (k - 1))) ∨ ab - 3 * k < 3)) ∧
        (labelLoopF d fuel pos ab rs pl e).e.pathId = e.pathId ∧
        (labelLoopF d fuel pos ab rs pl e).e.prefixText = e.prefixText ∧
        (labelLoopF d fuel pos ab rs pl e).e.prefixBin = e.prefixBin ∧
        (labelLoopF d fuel pos ab rs pl e).e.afi = e.afi ∧
        (labelLoopF d fuel pos ab rs pl e).e.safi = e.safi ∧
        (labelLoopF d fuel pos ab rs pl e).e.type = e.type := by
  intro fuel
  induction fuel with
  | zero =>
    intro pos ab rs pl e
    refine ⟨0, ?_, ?_, ?_, ?_, ?_, ?_, ?_, ?_, ?_, ?_, ?_, ?_, ?_, ?_, ?_⟩
    · simp [labelLoopF]
    · simp [labelLoopF]
    · simp [labelLoopF]
    · simp [labelLoopF]
    · simp [labelLoopF]
    · simp [labelLoopF]
    · omega
    · intro j hj; omega
    · intro hab; exact ⟨by omega, by omega⟩
    · simp [labelLoopF]
    · simp [labelLoopF]
    · simp [labelLoopF]
    · simp [labelLoopF]
    · simp [labelLoopF]
    · simp [labelLoopF]
  | succ n ih =>
    intro pos ab rs pl e
    by_cases hab : 3 ≤ ab
    · by_cases hstop : wire24 d pos % 2 = 1 ∨ wire24 d pos * 256 = 2147483648
      · -- bottom of stack or withdrawn sentinel: one label consumed, loop stops
        have hunfold : labelLoopF d (n + 1) pos ab rs pl e =
            ⟨pos + 3, ab - 3, rs + 3, (pl + 256 - 24) % 256,
              { e with
                prefixLength := e.prefixLength ++ [toString ((pl + 256 - 24) % 256)]
                labels := e.labels ++ [toString (wire24 d pos / 16)] }⟩ := by
          rw [labelLoopF, if_pos hab, if_pos hstop]
        rw [hunfold]
        refine ⟨1, ?_, ?_, ?_, ?_, ?_, ?_, ?_, ?_, ?_, ?_, ?_, ?_, ?_, ?_, ?_⟩
        · have hr1 : List.range 1 = [0] := rfl
          simp [hr1]
        · have hr1 : List.range 1 = [0] := rfl
          have h0 : (pl + 256 - 24) % 256 = (pl + 232 * (0 + 1)) % 256 := by congr 1
          simp [hr1, h0]
        · have h0 : (pl + 256 - 24) % 256 = (pl + 232 * 1) % 256 := by congr 1
          simp only [h0]
          rw [if_neg one_ne_zero]
        · simp [Nat.mul_one]
        · simp [Nat.mul_one]
        · simp [Nat.mul_one]
        · omega
        · intro j hj; omega
        · intro _
          refine ⟨fun _ => le_refl 1, fun _ => Or.inl ?_⟩
          simpa [labelStop] using hstop
        · simp
        · simp
        · simp
        · simp
        · simp
        · simp
      · -- continue with the next label
        have hunfold : labelLoopF d (n + 1) pos ab rs pl e =
            labelLoopF d n (pos + 3) (ab - 3) (rs + 3) ((pl + 256 - 24) % 256)
              { e with
                prefixLength := e.prefixLength ++ [toString ((pl + 256 - 24) % 256)]
                labels := e.labels ++ [toString (wire24 d pos / 16)] } := by
          rw [labelLoopF, if_pos hab, if_neg hstop]
        obtain ⟨k', h1, h2, h3, h4, h5, h6, h7, h8, h9, h10, h11, h12, h13, h14, h15⟩ :=
          ih (pos + 3) (ab - 3) (rs + 3) ((pl + 256 - 24) % 256)
            { e with
              prefixLength := e.prefixLength ++ [toString ((pl + 256 - 24) % 256)]
              labels := e.labels ++ [toString (wire24 d pos / 16)] }
        have hpl232 : (pl + 256 - 24) % 256 = (pl + 232) % 256 := by congr 1
        have hmodshift : ∀ c : Nat, ((pl + 256 - 24) % 256 + 232 * c) % 256 =
            (pl + 232 * (c + 1)) % 256 := by
          intro c
          rw [hpl232, Nat.mod_add_mod]
          congr 1; ring
        rw [hunfold]
        refine ⟨k' + 1, ?_, ?_, ?_, ?_, ?_, ?_, ?_, ?_, ?_, ?_, ?_, ?_, ?_, ?_, ?_⟩
        · rw [h1]
          simp only [List.append_assoc, List.singleton_append]
          congr 1
          refine cons_map_range _ _ _ _ ?_ ?_
          · simp
          · intro j
            have harith : pos + 3 + 3 * j = pos + 3 * (j + 1) := by omega
            rw [harith]
        · rw [h2]
          simp only [List.append_assoc, List.singleton_append]
          congr 1
          refine cons_map_range _ _ _ _ ?_ ?_
          · have h0 : (pl + 256 - 24) % 256 = (pl + 232 * (0 + 1)) % 256 := by congr 1
            rw [h0]
          · intro j
            exact congrArg toString (hmodshift (j + 1))
        · rw [h3]
          rcases Nat.eq_zero_or_pos k' with hk | hk
          · subst hk
            rw [if_pos rfl, if_neg (by omega)]
            congr 1
          · rw [if_neg (by omega), if_neg (by omega)]
            rw [hmodshift k']
        · rw [h4]; omega
        · rw [h5]; omega
        · rw [h6]; omega
        · omega
        · intro j hj
          rcases Nat.eq_zero_or_pos j with hj0 | hj0
          · subst hj0
            simpa [labelStop] using hstop
          · have := h8 (j - 1) (by omega)
            have harith : pos + 3 + 3 * (j - 1) = pos + 3 * j := by omega
            rwa [harith] at this
        · intro hfuel
          have hfuel' : ab - 3 ≤ 3 * n := by omega
          obtain ⟨h9a, h9b⟩ := h9 hfuel'
          refine ⟨fun _ => by omega, fun _ => ?_⟩
          rcases Nat.eq_zero_or_pos k' with hk | hk
          · right
            have : ¬ 3 ≤ ab - 3 := by
              intro hc
              have := h9a hc
              omega
            omega
          · rcases h9b hk with hstop' | hlt
            · left
              have harith : pos + 3 + 3 * (k' - 1) = pos + 3 * (k' + 1 - 1) := by omega
              rwa [harith] at hstop'
            · right; omega
        · rw [h10]
        · rw [h11]
        · rw [h12]
        · rw [h13]
        · rw [h14]
        · rw [h15]
    · have hunfold : labelLoopF d (n + 1) pos ab rs pl e = ⟨pos, ab, rs, pl, e⟩ := by
        rw [labelLoopF, if_neg hab]
      rw [hunfold]
      refine ⟨0, ?_, ?_, ?_, ?_, ?_, ?_, ?_, ?_, ?_, ?_, ?_, ?_, ?_, ?_, ?_⟩
      · simp
      · simp
      · simp
      · simp
      · simp
      · simp
      · omega
      · intro j hj; omega
      · intro _; exact ⟨fun h3 => absurd h3 hab, by omega⟩
      · rfl
      · rfl
      · rfl
      · rfl
      · rfl
      · rfl

lemma unicastLoopF_step_ex (isIPv4 : Bool) (ap : Nat → Nat → Bool)
    (ntop : Bool → List Nat → String) (d : Nat → Nat) (len pos rs : Nat)
    (nlri : ParseBgpLibNlri) (hrs : rs < len) :
    ∃ e1 pos2 rs2,
      (∀ n, unicastLoopF isIPv4 ap ntop d len (n + 1) pos rs nlri =
        e1 :: unicastLoopF isIPv4 ap ntop d len n pos2 rs2 e1) ∧
      rs + 1 ≤ rs2 ∧
      nlri.pathId <+: e1.pathId ∧ nlri.prefixLength <+: e1.prefixLength ∧
      nlri.prefixText <+: e1.prefixText ∧ nlri.prefixBin <+: e1.prefixBin ∧
      nlri.labels <+: e1.labels ∧
      e1.pathId.length = nlri.pathId.length + 1 := by
  by_cases hc : (ap nlri.afi nlri.safi && decide (4 ≤ len - rs)) = true
  · refine ⟨uIterEntry isIPv4 ntop d (be32 d pos) (pos + 4) nlri,
      pos + 4 + 1 + addrBytesOf (byte d (pos + 4)),
      rs + 4 + addrBytesOf (byte d (pos + 4)) + 1, ?_, by omega, ?_, ?_, ?_, ?_, ?_, ?_⟩
    · intro n
      rw [unicastLoopF, if_pos hrs]
      simp only [hc, if_true]
    · exact List.prefix_append _ _
    · exact List.prefix_append _ _
    · exact List.prefix_append _ _
    · exact List.prefix_append _ _
    · exact List.prefix_rfl
    · simp [uIterEntry]
  · have hc' : (ap nlri.afi nlri.safi && decide (4 ≤ len - rs)) = false :=
      Bool.not_eq_true _ ▸ eq_false_of_ne_true hc
    refine ⟨uIterEntry isIPv4 ntop d 0 pos nlri,
      pos + 1 + addrBytesOf (byte d pos),
      rs + addrBytesOf (byte d pos) + 1, ?_, by omega, ?_, ?_, ?_, ?_, ?_, ?_⟩
    · intro n
      rw [unicastLoopF, if_pos hrs]
      simp only [hc', Bool.false_eq_true, if_false]
    · exact List.prefix_append _ _
    · exact List.prefix_append _ _
    · exact List.prefix_append _ _
    · exact List.prefix_append _ _
    · exact List.prefix_rfl
    · simp [uIterEntry]

lemma labeledLoopF_step_ex (isIPv4 : Bool) (ap : Nat → Nat → Bool)
    (ntop : Bool → List Nat → String) (d : Nat → Nat) (len pos rs : Nat)
    (nlri : ParseBgpLibNlri) (hrs : rs < len) :
    ∃ e1 pos2 rs2,
      (∀ n, labeledLoopF isIPv4 ap ntop d len (n + 1) pos rs nlri =
        e1 :: labeledLoopF isIPv4 ap ntop d len n pos2 rs2 e1) ∧
      rs + 1 ≤ rs2 ∧
      nlri.pathId <+: e1.pathId ∧ nlri.prefixLength <+: e1.prefixLength ∧
      nlri.prefixText <+: e1.prefixText ∧ nlri.prefixBin <+: e1.prefixBin ∧
      nlri.labels <+: e1.labels ∧
      e1.pathId.length = nlri.pathId.length + 1 := by
  have hzl : ¬ (0 : Nat) = len := by omega
  by_cases hc : (ap nlri.afi nlri.safi && decide (4 ≤ len - rs)) = true
  · obtain ⟨k, h1, h2, h3, h4, h5, h6, h7, h8, h9, h10, h11, h12, h13, h14, h15⟩ :=
      labelLoopF_spec d (addrBytesOf (byte d (pos + 4))) (pos + 4 + 1)
        (addrBytesOf (byte d (pos + 4))) (rs + 4) (byte d (pos + 4))
        { nlri with pathId := nlri.pathId ++ [toString (be32 d pos)] }
    refine ⟨lIterEntry isIPv4 ntop d (be32 d pos) (pos + 4) (rs + 4) nlri,
      (labelLoopF d (addrBytesOf (byte d (pos + 4))) (pos + 4 + 1)
        (addrBytesOf (byte d (pos + 4))) (rs + 4) (byte d (pos + 4))
        { nlri with pathId := nlri.pathId ++ [toString (be32 d pos)] }).pos +
      (labelLoopF d (addrBytesOf (byte d (pos + 4))) (pos + 4 + 1)
        (addrBytesOf (byte d (pos + 4))) (rs + 4) (byte d (pos + 4))
        { nlri with pathId := nlri.pathId ++ [toString (be32 d pos)] }).ab,
      (labelLoopF d (addrBytesOf (byte d (pos + 4))) (pos + 4 + 1)
        (addrBytesOf (byte d (pos + 4))) (rs + 4) (byte d (pos + 4))
        { nlri with pathId := nlri.pathId ++ [toString (be32 d pos)] }).rs +
      (labelLoopF d (addrBytesOf (byte d (pos + 4))) (pos + 4 + 1)
        (addrBytesOf (byte d (pos + 4))) (rs + 4) (byte d (pos + 4))
        { nlri with pathId := nlri.pathId ++ [toString (be32 d pos)] }).ab + 1,
      ?_, ?_, ?_, ?_, ?_, ?_, ?_, ?_⟩
    · intro n
      rw [labeledLoopF, if_pos hrs]
      simp only [hc, if_true, if_neg hzl]
    · have := labelLoopF_rs_le d (addrBytesOf (byte d (pos + 4))) (pos + 4 + 1)
        (addrBytesOf (byte d (pos + 4))) (rs + 4) (byte d (pos + 4))
        { nlri with pathId := nlri.pathId ++ [toString (be32 d pos)] }
      omega
    · simp only [lIterEntry, h10]
      exact List.prefix_append _ _
    · simp only [lIterEntry, h2]
      exact List.prefix_append _ _
    · simp only [lIterEntry, h11]
      exact List.prefix_append _ _
    · simp only [lIterEntry, h12]
      exact List.prefix_append _ _
    · simp only [lIterEntry, h1]
      exact List.prefix_append _ _
    · simp only [lIterEntry, h10, List.length_append, List.length_cons, List.length_nil]
  · have hc' : (ap nlri.afi nlri.safi && decide (4 ≤ len - rs)) = false :=
      Bool.not_eq_true _ ▸ eq_false_of_ne_true hc
    obtain ⟨k, h1, h2, h3, h4, h5, h6, h7, h8, h9, h10, h11, h12, h13, h14, h15⟩ :=
      labelLoopF_spec d (addrBytesOf (byte d pos)) (pos + 1)
        (addrBytesOf (byte d pos)) rs (byte d pos)
        { nlri with pathId := nlri.pathId ++ [toString 0] }
    refine ⟨lIterEntry isIPv4 ntop d 0 pos rs nlri,
      (labelLoopF d (addrBytesOf (byte d pos)) (pos + 1)
        (addrBytesOf (byte d pos)) rs (byte d pos)
        { nlri with pathId := nlri.pathId ++ [toString 0] }).pos +
      (labelLoopF d (addrBytesOf (byte d pos)) (pos + 1)
        (addrBytesOf (byte d pos)) rs (byte d pos)
        { nlri with pathId := nlri.pathId ++ [toString 0] }).ab,
      (labelLoopF d (addrBytesOf (byte d pos)) (pos + 1)
        (addrBytesOf (byte d pos)) rs (byte d pos)
        { nlri with pathId := nlri.pathId ++ [toString 0] }).rs +
      (labelLoopF d (addrBytesOf (byte d pos)) (pos + 1)
        (addrBytesOf (byte d pos)) rs (byte d pos)
        { nlri with pathId := nlri.pathId ++ [toString 0] }).ab + 1,
      ?_, ?_, ?_, ?_, ?_, ?_, ?_, ?_⟩
    · intro n
      rw [labeledLoopF, if_pos hrs]
      simp only [hc', Bool.false_eq_true, if_false, if_neg hzl]
    · have := labelLoopF_rs_le d (addrBytesOf (byte d pos)) (pos + 1)
        (addrBytesOf (byte d pos)) rs (byte d pos)
        { nlri with pathId := nlri.pathId ++ [toString 0] }
      omega
    · simp only [lIterEntry, h10]
      exact List.prefix_append _ _
    · simp only [lIterEntry, h2]
      exact List.prefix_append _ _
    · simp only [lIterEntry, h11]
      exact List.prefix_append _ _
    · simp only [lIterEntry, h12]
      exact List.prefix_append _ _
    · simp only [lIterEntry, h1]
      exact List.prefix_append _ _
    · simp only [lIterEntry, h10, List.length_append, List.length_cons, List.length_nil]

lemma unicastLoopF_fuel_irrel (isIPv4 : Bool) (ap : Nat → Nat → Bool)
    (ntop : Bool → List Nat → String) (d : Nat → Nat) (len : Nat) :
    ∀ f1 f2 pos rs nlri, len - rs ≤ f1 → len - rs ≤ f2 →
      unicastLoopF isIPv4 ap ntop d len f1 pos rs nlri =
        unicastLoopF isIPv4 ap ntop d len f2 pos rs nlri := by
  intro f1
  induction f1 with
  | zero =>
    intro f2 pos rs nlri h1 h2
    have hrs : ¬ rs < len := by omega
    cases f2 with
    | zero => rfl
    | succ m => simp [unicastLoopF, hrs]
  | succ n ih =>
    intro f2 pos rs nlri h1 h2
    by_cases hrs : rs < len
    · cases f2 with
      | zero => omega
      | succ m =>
        obtain ⟨e1, pos2, rs2, hstep, hrs2, -⟩ :=
          unicastLoopF_step_ex isIPv4 ap ntop d len pos rs nlri hrs
        rw [hstep n, hstep m]
        congr 1
        apply ih <;> omega
    · cases f2 with
      | zero => simp [unicastLoopF, hrs]
      | succ m => simp [unicastLoopF, hrs]

lemma unicastLoopF_length (isIPv4 : Bool) (ap : Nat → Nat → Bool)
    (ntop : Bool → List Nat → String) (d : Nat → Nat) (len : Nat) :
    ∀ fuel pos rs nlri,
      (unicastLoopF isIPv4 ap ntop d len fuel pos rs nlri).length ≤ len - rs := by
  intro fuel
  induction fuel with
  | zero => intro pos rs nlri; simp [unicastLoopF]
  | succ n ih =>
    intro pos rs nlri
    by_cases hrs : rs < len
    · obtain ⟨e1, pos2, rs2, hstep, hrs2, -⟩ :=
        unicastLoopF_step_ex isIPv4 ap ntop d len pos rs nlri hrs
      rw [hstep n, List.length_cons]
      have := ih pos2 rs2 e1
      omega
    · simp [unicastLoopF, hrs]

lemma labeledLoopF_fuel_irrel (isIPv4 : Bool) (ap : Nat → Nat → Bool)
    (ntop : Bool → List Nat → String) (d : Nat → Nat) (len : Nat) :
    ∀ f1 f2 pos rs nlri, len - rs ≤ f1 → len - rs ≤ f2 →
      labeledLoopF isIPv4 ap ntop d len f1 pos rs nlri =
        labeledLoopF isIPv4 ap ntop d len f2 pos rs nlri := by
  intro f1
  induction f1 with
  | zero =>
    intro f2 pos rs nlri h1 h2
    have hrs : ¬ rs < len := by omega
    cases f2 with
    | zero => rfl
    | succ m => simp [labeledLoopF, hrs]
  | succ n ih =>
    intro f2 pos rs nlri h1 h2
    by_cases hrs : rs < len
    · cases f2 with
      | zero => omega
      | succ m =>
        obtain ⟨e1, pos2, rs2, hstep, hrs2, -⟩ :=
          labeledLoopF_step_ex isIPv4 ap ntop d len pos rs nlri hrs
        rw [hstep n, hstep m]
        congr 1
        apply ih <;> omega
    · cases f2 with
      | zero => simp [labeledLoopF, hrs]
      | succ m => simp [labeledLoopF, hrs]

lemma labeledLoopF_length (isIPv4 : Bool) (ap : Nat → Nat → Bool)
    (ntop : Bool → List Nat → String) (d : Nat → Nat) (len : Nat) :
    ∀ fuel pos rs nlri,
      (labeledLoopF isIPv4 ap ntop d len fuel pos rs nlri).length ≤ len - rs := by
  intro fuel
  induction fuel with
  | zero => intro pos rs nlri; simp [labeledLoopF]
  | succ n ih =>
    intro pos rs nlri
    by_cases hrs : rs < len
    · obtain ⟨e1, pos2, rs2, hstep, hrs2, -⟩ :=
        labeledLoopF_step_ex isIPv4 ap ntop d len pos rs nlri hrs
      rw [hstep n, List.length_cons]
      have := ih pos2 rs2 e1
      omega
    · simp [labeledLoopF, hrs]

/-- The accumulation relation between consecutive entries appended by one
decoder call: every per-field list of the earlier entry is a prefix of the
later entry's list. -/
def entryExtends (a b : ParseBgpLibNlri) : Prop :=
  a.pathId <+: b.pathId ∧ a.prefixLength <+: b.prefixLength ∧
  a.prefixText <+: b.prefixText ∧ a.prefixBin <+: b.prefixBin ∧
  a.labels <+: b.labels

lemma unicastLoopF_chain (isIPv4 : Bool) (ap : Nat → Nat → Bool)
    (ntop : Bool → List Nat → String) (d : Nat → Nat) (len : Nat) :
    ∀ fuel pos rs nlri,
      List.Chain' entryExtends (nlri :: unicastLoopF isIPv4 ap ntop d len fuel pos rs nlri) := by
  intro fuel
  induction fuel with
  | zero => intro pos rs nlri; simp [unicastLoopF]
  | succ n ih =>
    intro pos rs nlri
    by_cases hrs : rs < len
    · obtain ⟨e1, pos2, rs2, hstep, -, hp1, hp2, hp3, hp4, hp5, -⟩ :=
        unicastLoopF_step_ex isIPv4 ap ntop d len pos rs nlri hrs
      rw [hstep n]
      exact List.Chain'.cons ⟨hp1, hp2, hp3, hp4, hp5⟩ (ih pos2 rs2 e1)
    · simp [unicastLoopF, hrs]

lemma labeledLoopF_chain (isIPv4 : Bool) (ap : Nat → Nat → Bool)
    (ntop : Bool → List Nat → String) (d : Nat → Nat) (len : Nat) :
    ∀ fuel pos rs nlri,
      List.Chain' entryExtends (nlri :: labeledLoopF isIPv4 ap ntop d len fuel pos rs nlri) := by
  intro fuel
  induction fuel with
  | zero => intro pos rs nlri; simp [labeledLoopF]
  | succ n ih =>
    intro pos rs nlri
    by_cases hrs : rs < len
    · obtain ⟨e1, pos2, rs2, hstep, -, hp1, hp2, hp3, hp4, hp5, -⟩ :=
        labeledLoopF_step_ex isIPv4 ap ntop d len pos rs nlri hrs
      rw [hstep n]
      exact List.Chain'.cons ⟨hp1, hp2, hp3, hp4, hp5⟩ (ih pos2 rs2 e1)
    · simp [labeledLoopF, hrs]

lemma ipRaw16_pad16 (d : Nat → Nat) (start : Nat) (bs : List Nat) (hle : bs.length ≤ 16)
    (hb : ∀ i, i < bs.length → byte d (start + i) = bs.getD i 0) :
    ipRaw16 d start bs.length = pad16 bs := by
  apply List.ext_getElem
  · simp [ipRaw16, pad16]
    omega
  · intro i h1 h2
    simp only [ipRaw16, List.length_map, List.length_range] at h1
    simp only [ipRaw16, List.getElem_map, List.getElem_range, pad16]
    by_cases hib : i < bs.length
    · rw [if_pos hib, List.getElem_append_left hib, hb i hib, List.getD_eq_getElem bs 0 hib]
    · rw [if_neg hib, List.getElem_append_right (Nat.le_of_not_lt hib)]
      simp [List.getElem_replicate]

lemma encodeUnicastNlri_cons (p : Nat × List Nat) (ps : List (Nat × List Nat)) :
    encodeUnicastNlri (p :: ps) = (p.1 :: p.2) ++ encodeUnicastNlri ps := by
  simp [encodeUnicastNlri]

lemma unicast_decode_encode (isIPv4 : Bool) (ntop : Bool → List Nat → String)
    (d : Nat → Nat) (len : Nat) :
    ∀ (ps : List (Nat × List Nat)) (pos rs : Nat) (nlri : ParseBgpLibNlri) (fuel : Nat),
      wfUnicast ps →
      (∀ j, j < (encodeUnicastNlri ps).length → d (pos + j) = (encodeUnicastNlri ps).getD j 0) →
      len = rs + (encodeUnicastNlri ps).length →
      len - rs ≤ fuel →
      unicastLoopF isIPv4 (fun _ _ => false) ntop d len fuel pos rs nlri =
        entriesSpecU isIPv4 ntop nlri ps := by
  intro ps
  induction ps with
  | nil =>
    intro pos rs nlri fuel hwf hag hlen hfuel
    have hrs : ¬ rs < len := by
      simp only [encodeUnicastNlri, List.map_nil, List.flatten_nil, List.length_nil] at hlen
      omega
    cases fuel with
    | zero => simp [unicastLoopF, entriesSpecU]
    | succ f => simp [unicastLoopF, hrs, entriesSpecU]
  | cons p ps ih =>
    intro pos rs nlri fuel hwf hag hlen hfuel
    obtain ⟨hp1, hp2, hp3, hp4⟩ := hwf p (List.mem_cons_self _ _)
    have hwf' : wfUnicast ps := fun q hq => hwf q (List.mem_cons_of_mem _ hq)
    have hlen1 : (encodeUnicastNlri (p :: ps)).length =
        1 + p.2.length + (encodeUnicastNlri ps).length := by
      rw [encodeUnicastNlri_cons]
      simp only [List.length_append, List.length_cons]
      omega
    have hrs : rs < len := by omega
    cases fuel with
    | zero => omega
    | succ f =>
      have hd0 : d pos = p.1 := by
        have h0 := hag 0 (by omega)
        rw [encodeUnicastNlri_cons] at h0
        simpa using h0
      have hbyte0 : byte d pos = p.1 := by
        rw [byte, hd0, Nat.mod_eq_of_lt hp1]
      have hab : addrBytesOf (byte d pos) = p.2.length := by rw [hbyte0, ← hp2]
      have hmid : ∀ i, i < p.2.length → byte d (pos + 1 + i) = p.2.getD i 0 := by
        intro i hi
        have h1 := hag (1 + i) (by omega)
        rw [encodeUnicastNlri_cons, List.getD_append _ _ _ _ (by simp; omega)] at h1
        have h2 : (p.1 :: p.2).getD (1 + i) 0 = p.2.getD i 0 := by
          rw [Nat.add_comm 1 i, List.getD_cons_succ]
        rw [h2] at h1
        have h3 : pos + (1 + i) = pos + 1 + i := by omega
        rw [h3] at h1
        have hlt : p.2.getD i 0 < 256 := by
          rw [List.getD_eq_getElem _ _ hi]
          exact hp4 _ (List.getElem_mem hi)
        rw [byte, h1, Nat.mod_eq_of_lt hlt]
      have hraw : ipRaw16 d (pos + 1) (addrBytesOf p.1) = pad16 p.2 := by
        rw [← hp2]
        exact ipRaw16_pad16 d (pos + 1) p.2 hp3 hmid
      have hc : ((fun _ _ => false : Nat → Nat → Bool) nlri.afi nlri.safi &&
          decide (4 ≤ len - rs)) = false := by simp
      have h00 : toString (0 : Nat) = "0" := rfl
      have hent : uIterEntry isIPv4 ntop d 0 pos nlri = pushUnicast isIPv4 ntop nlri p := by
        simp only [uIterEntry, pushUnicast, hbyte0, hraw, h00]
      simp only [unicastLoopF, if_pos hrs, hc, Bool.false_eq_true, if_false, hent]
      rw [entriesSpecU]
      congr 1
      apply ih
      · exact hwf'
      · intro j hj
        have hsh := hag (1 + p.2.length + j) (by omega)
        rw [encodeUnicastNlri_cons,
          List.getD_append_right _ _ _ _ (by simp; omega)] at hsh
        have h4 : 1 + p.2.length + j - (p.1 :: p.2).length = j := by simp; omega
        rw [h4] at hsh
        have h5 : pos + (1 + p.2.length + j) = pos + 1 + addrBytesOf (byte d pos) + j := by
          rw [hab]; omega
        rw [h5] at hsh
        exact hsh
      · rw [hab]; omega
      · omega

lemma encodeUnicastNlri_len_zero (ps : List (Nat × List Nat)) :
    (encodeUnicastNlri ps).length = 0 → ps = [] := by
  cases ps with
  | nil => intro _; rfl
  | cons p ps =>
    intro h
    rw [encodeUnicastNlri_cons] at h
    simp at h

lemma entriesSpecU_length (isIPv4 : Bool) (ntop : Bool → List Nat → String) :
    ∀ (ps : List (Nat × List Nat)) (nlri : ParseBgpLibNlri),
      (entriesSpecU isIPv4 ntop nlri ps).length = ps.length := by
  intro ps
  induction ps with
  | nil => intro nlri; rfl
  | cons p ps ih =>
    intro nlri
    rw [entriesSpecU]
    simp only [List.length_cons, ih]

lemma entriesSpecU_getD (isIPv4 : Bool) (ntop : Bool → List Nat → String) :
    ∀ (ps : List (Nat × List Nat)) (nlri : ParseBgpLibNlri) (i : Nat), i < ps.length →
      ((entriesSpecU isIPv4 ntop nlri ps).getD i default).pathId.getLast? = some ("0") ∧
      ((entriesSpecU isIPv4 ntop nlri ps).getD i default).prefixLength.getLast? =
        some (toString (ps.getD i (0, [])).1) ∧
      ((entriesSpecU isIPv4 ntop nlri ps).getD i default).prefixText.getLast? =
        some (ntop isIPv4 (pad16 (ps.getD i (0, [])).2)) ∧
      ((entriesSpecU isIPv4 ntop nlri ps).getD i default).prefixBin.getLast? =
        some ((pad16 (ps.getD i (0, [])).2).take 4) := by
  intro ps
  induction ps with
  | nil => intro nlri i h; simp at h
  | cons p ps ih =>
    intro nlri i h
    cases i with
    | zero =>
      rw [entriesSpecU]
      simp only [List.getD_cons_zero, pushUnicast]
      exact ⟨getLast?_append_singleton _ _, getLast?_append_singleton _ _,
        getLast?_append_singleton _ _, getLast?_append_singleton _ _⟩
    | succ i' =>
      rw [entriesSpecU]
      simp only [List.getD_cons_succ]
      exact ih _ i' (by simpa using h)

/-- Claim C1: decoding a synthetic unicast NLRI body that encodes prefixes
P1..Pn (add-path disabled) appends exactly n entries, in the same order,
the i-th carrying path identifier 0, the bit length of Pi and the
(zero-padded) address bytes of Pi as its most recently pushed field
values. -/
theorem C1_unicast_round_trip (isIPv4 : Bool) (ntop : Bool → List Nat → String)
    (ps : List (Nat × List Nat)) (hwf : wfUnicast ps) :
    (parseNlriData_IPv4IPv6 isIPv4 (fun _ _ => false) ntop
        (fun i => (encodeUnicastNlri ps).getD i 0) (encodeUnicastNlri ps).length).length =
      ps.length ∧
    ∀ i, i < ps.length →
      ((parseNlriData_IPv4IPv6 isIPv4 (fun _ _ => false) ntop
          (fun i => (encodeUnicastNlri ps).getD i 0) (encodeUnicastNlri ps).length).getD i
          default).pathId.getLast? = some ("0") ∧
      ((parseNlriData_IPv4IPv6 isIPv4 (fun _ _ => false) ntop
          (fun i => (encodeUnicastNlri ps).getD i 0) (encodeUnicastNlri ps).length).getD i
          default).prefixLength.getLast? = some (toString (ps.getD i (0, [])).1) ∧
      ((parseNlriData_IPv4IPv6 isIPv4 (fun _ _ => false) ntop
          (fun i => (encodeUnicastNlri ps).getD i 0) (encodeUnicastNlri ps).length).getD i
          default).prefixText.getLast? = some (ntop isIPv4 (pad16 (ps.getD i (0, [])).2)) ∧
      ((parseNlriData_IPv4IPv6 isIPv4 (fun _ _ => false) ntop
          (fun i => (encodeUnicastNlri ps).getD i 0) (encodeUnicastNlri ps).length).getD i
          default).prefixBin.getLast? = some ((pad16 (ps.getD i (0, [])).2).take 4) := by
  have hmain : parseNlriData_IPv4IPv6 isIPv4 (fun _ _ => false) ntop
      (fun i => (encodeUnicastNlri ps).getD i 0) (encodeUnicastNlri ps).length =
      entriesSpecU isIPv4 ntop (initNlri isIPv4 BGP_SAFI_UNICAST) ps := by
    rw [parseNlriData_IPv4IPv6]
    by_cases hz : (encodeUnicastNlri ps).length = 0
    · rw [if_pos hz, encodeUnicastNlri_len_zero ps hz]
      rfl
    · rw [if_neg hz]
      apply unicast_decode_encode
      · exact hwf
      · intro j hj
        simp
      · omega
      · omega
  rw [hmain]
  refine ⟨entriesSpecU_length isIPv4 ntop ps _, ?_⟩
  intro i hi
  exact entriesSpecU_getD isIPv4 ntop ps _ i hi

/-- Witness for C1 at the spec's end-to-end example prefix 192.168.1.0/24. -/
theorem C1_witness :
    wfUnicast [(24, [192, 168, 1])] ∧
    (parseNlriData_IPv4IPv6 true (fun _ _ => false)
        (fun v4 b => if v4 then inet_ntop4 b else ("noV6"))
        (fun i => (encodeUnicastNlri [(24, [192, 168, 1])]).getD i 0)
        (encodeUnicastNlri [(24, [192, 168, 1])]).length).length = 1 ∧
    ((parseNlriData_IPv4IPv6 true (fun _ _ => false)
        (fun v4 b => if v4 then inet_ntop4 b else ("noV6"))
        (fun i => (encodeUnicastNlri [(24, [192, 168, 1])]).getD i 0)
        (encodeUnicastNlri [(24, [192, 168, 1])]).length).getD 0
        default).prefixText.getLast? = some ("192.168.1.0") := by
  have hwf : wfUnicast [(24, [192, 168, 1])] := by decide
  have h := C1_unicast_round_trip true
    (fun v4 b => if v4 then inet_ntop4 b else ("noV6")) [(24, [192, 168, 1])] hwf
  refine ⟨hwf, h.1, ?_⟩
  have h2 := (h.2 0 (by decide)).2.2.1
  simpa using h2

/-- An empty caller update for concrete runs: default-constructed map and
empty NLRI list. -/
def update0 : ParsedUpdate :=
  { attrs := fun _ => { official_type := 0, attr_name := "", attr_value := [] }
    nlri_list := [] }

/-- Claim C2: when the declared attribute length minus the consumed header
bytes (2 AFI + 1 SAFI + 1 next-hop-length + nh_len next-hop bytes +
1 reserved) is negative, parseReachNlriAttr returns the update untouched:
no NLRI entry is appended and no next-hop value is written.  In particular
any declared length below 4 aborts this way. -/
theorem C2_short_attribute_aborts (ap : Nat → Nat → Bool) (ntop : Bool → List Nat → String)
    (attr_len : Int) (d : Nat → Nat) (update : ParsedUpdate) :
    (attr_len - 2 - 1 - 1 - (byte d 3 : Int) - 1 < 0 →
      parseReachNlriAttr ap ntop attr_len d update = update) ∧
    (attr_len < 4 → parseReachNlriAttr ap ntop attr_len d update = update) := by
  have haux : attr_len - 2 - 1 - 1 - (byte d 3 : Int) - 1 < 0 →
      parseReachNlriAttr ap ntop attr_len d update = update := by
    intro h
    simp only [parseReachNlriAttr]
    rw [if_pos h]
  exact ⟨haux, fun h => haux (by omega)⟩

/-- Witness for C2: a 3-byte (all-zero) attribute leaves the update alone. -/
theorem C2_witness :
    (3 : Int) < 4 ∧
    parseReachNlriAttr (fun _ _ => false) (fun _ _ => ("")) 3 (fun _ => 0) update0 = update0 :=
  ⟨by decide,
    (C2_short_attribute_aborts (fun _ _ => false) (fun _ _ => ("")) 3 (fun _ => 0) update0).2
      (by decide)⟩

lemma wire24_lt (d : Nat → Nat) (i : Nat) : wire24 d i < 16777216 := by
  unfold wire24 byte
  omega

/-- Claim C3: with enough fuel (the loop runs at most ab / 3 times and the
callers pass fuel = ab), the label loop consumes k labels with 3k ≤ ab,
appends exactly their 20-bit values in wire order, runs again whenever at
least 3 bytes remain, and stops early exactly on a consumed label whose
bottom-of-stack bit is set or whose raw 32-bit value is the withdrawal
sentinel 0x80000000: no earlier consumed label satisfies the stop
condition, and the last one does unless fewer than 3 bytes remain. -/
theorem C3_label_loop_stop (d : Nat → Nat) (fuel pos ab rs pl : Nat) (e : ParseBgpLibNlri)
    (hfuel : ab ≤ 3 * fuel) :
    (labelLoopF d fuel pos ab rs pl e).e.labels =
      e.labels ++ (List.range
        ((labelLoopF d fuel pos ab rs pl e).e.labels.length - e.labels.length)).map
        (fun j => toString (wire24 d (pos + 3 * j) / 16)) ∧
    (∀ j : Nat, wire24 d (pos + 3 * j) / 16 < 1048576) ∧
    3 * ((labelLoopF d fuel pos ab rs pl e).e.labels.length - e.labels.length) ≤ ab ∧
    (3 ≤ ab → 1 ≤ (labelLoopF d fuel pos ab rs pl e).e.labels.length - e.labels.length) ∧
    (∀ j, j + 1 < (labelLoopF d fuel pos ab rs pl e).e.labels.length - e.labels.length →
      ¬ labelStop (wire24 d (pos + 3 * j))) ∧
    (1 ≤ (labelLoopF d fuel pos ab rs pl e).e.labels.length - e.labels.length →
      labelStop (wire24 d (pos + 3 *
        ((labelLoopF d fuel pos ab rs pl e).e.labels.length - e.labels.length - 1))) ∨
      ab - 3 * ((labelLoopF d fuel pos ab rs pl e).e.labels.length - e.labels.length) < 3) := by
  obtain ⟨k, h1, h2, h3, h4, h5, h6, h7, h8, h9, h10⟩ := labelLoopF_spec d fuel pos ab rs pl e
  have hk : (labelLoopF d fuel pos ab rs pl e).e.labels.length - e.labels.length = k := by
    rw [h1]
    simp
  rw [hk]
  obtain ⟨h9a, h9b⟩ := h9 hfuel
  exact ⟨h1, fun j => by
      have := wire24_lt d (pos + 3 * j)
      omega,
    h7, h9a, h8, h9b⟩

/-- Witness for C3: a 6-byte stack [0,0,0][0,0,1]; the second label carries
bottom-of-stack, so two labels (values 0, 0) are consumed. -/
theorem C3_witness :
    (6 : Nat) ≤ 3 * 6 ∧
    3 ≤ 6 ∧
    1 ≤ (labelLoopF (fun i => [0, 0, 0, 0, 0, 1].getD i 0) 6 0 6 0 48 default).e.labels.length -
      (default : ParseBgpLibNlri).labels.length :=
  ⟨by decide, by decide,
    (C3_label_loop_stop (fun i => [0, 0, 0, 0, 0, 1].getD i 0) 6 0 6 0 48 default
      (by decide)).2.2.2.1 (by decide)⟩

/-- Counterexample to C4 as stated: the labeled body [17, 0x00, 0x00, 0x01]
(combined length 17 bits, one label with bottom-of-stack set) produces an
entry whose final prefix length is 249, the 8-bit wraparound of 17 - 24,
not the integer 17 - 24 = -7 the claim's no-wrap reading requires. -/
theorem C4_counterexample :
    (parseNlriData_LabelIPv4IPv6 true (fun _ _ => false)
        (fun v4 b => if v4 then inet_ntop4 b else ("noV6"))
        (fun i => [17, 0, 0, 1].getD i 0) 4).length = 1 ∧
    ((parseNlriData_LabelIPv4IPv6 true (fun _ _ => false)
        (fun v4 b => if v4 then inet_ntop4 b else ("noV6"))
        (fun i => [17, 0, 0, 1].getD i 0) 4).getD 0 default).labels.length = 1 ∧
    ((parseNlriData_LabelIPv4IPv6 true (fun _ _ => false)
        (fun v4 b => if v4 then inet_ntop4 b else ("noV6"))
        (fun i => [17, 0, 0, 1].getD i 0) 4).getD 0 default).prefixLength.getLast? =
      some ("249") ∧
    ¬ ((17 : Int) - 24 * 1 = 249) := by
  refine ⟨by decide, by decide, by decide, by decide⟩

/-- Claim C4 as amended: with k labels consumed, the final prefix-length
counter is (combined + 232·k) mod 256, i.e. combined − 24·k computed in
8-bit arithmetic.  It equals combined − 24·k exactly whenever 24·k ≤
combined (so k = 1 reduces by 24 and k = 2 by 48 bits), but wraps modulo
256 otherwise; the entry's most recently pushed prefix length records this
8-bit value. -/
theorem C4_amended_mod256 (d : Nat → Nat) (fuel pos ab rs pl : Nat) (e : ParseBgpLibNlri)
    (hpl : pl < 256) :
    (labelLoopF d fuel pos ab rs pl e).pl =
      (pl + 232 * ((labelLoopF d fuel pos ab rs pl e).e.labels.length - e.labels.length)) % 256 ∧
    (24 * ((labelLoopF d fuel pos ab rs pl e).e.labels.length - e.labels.length) ≤ pl →
      (labelLoopF d fuel pos ab rs pl e).pl =
        pl - 24 * ((labelLoopF d fuel pos ab rs pl e).e.labels.length - e.labels.length)) ∧
    (1 ≤ (labelLoopF d fuel pos ab rs pl e).e.labels.length - e.labels.length →
      (labelLoopF d fuel pos ab rs pl e).e.prefixLength.getLast? =
        some (toString ((pl + 232 *
          ((labelLoopF d fuel pos ab rs pl e).e.labels.length - e.labels.length)) % 256))) := by
  obtain ⟨k, h1, h2, h3, h4, h5, h6, h7, h8, h9, h10⟩ := labelLoopF_spec d fuel pos ab rs pl e
  have hk : (labelLoopF d fuel pos ab rs pl e).e.labels.length - e.labels.length = k := by
    rw [h1]
    simp
  rw [hk]
  have hmod : (labelLoopF d fuel pos ab rs pl e).pl = (pl + 232 * k) % 256 := by
    rw [h3]
    rcases Nat.eq_zero_or_pos k with hk0 | hk0
    · subst hk0
      rw [if_pos rfl]
      simp [Nat.mod_eq_of_lt hpl]
    · rw [if_neg (by omega)]
  refine ⟨hmod, ?_, ?_⟩
  · intro hle
    rw [hmod]
    omega
  · intro hk1
    rcases Nat.exists_eq_add_of_le hk1 with ⟨n, hn⟩
    have hkn : k = n + 1 := by omega
    subst hkn
    rw [h2, List.range_succ, List.map_append, ← List.append_assoc]
    simp only [List.map_cons, List.map_nil]
    rw [getLast?_append_singleton]

/-- Witness for the amended C4: two labels consumed from combined length 48
leave prefix length 48 - 24·2 = 0, with no wrap since 24·2 ≤ 48. -/
theorem C4_witness :
    (48 : Nat) < 256 ∧
    24 * ((labelLoopF (fun i => [0, 0, 0, 0, 0, 1].getD i 0) 6 0 6 0 48 default).e.labels.length -
      (default : ParseBgpLibNlri).labels.length) ≤ 48 ∧
    (labelLoopF (fun i => [0, 0, 0, 0, 0, 1].getD i 0) 6 0 6 0 48 default).pl =
      48 - 24 * ((labelLoopF (fun i => [0, 0, 0, 0, 0, 1].getD i 0) 6 0 6 0 48
        default).e.labels.length - (default : ParseBgpLibNlri).labels.length) :=
  ⟨by decide, by decide,
    (C4_amended_mod256 (fun i => [0, 0, 0, 0, 0, 1].getD i 0) 6 0 6 0 48 default
      (by decide)).2.1 (by decide)⟩

/-- Claim C5: in every iteration of either NLRI prefix loop, when the
add-path capability holds for the entry's AFI/SAFI and at least 4 bytes
remain, the 4 bytes at the cursor are consumed as the big-endian path
identifier and the prefix-length byte (and everything after it) is read
from offset pos + 4; otherwise the recorded path identifier is 0 and the
prefix-length byte is read at pos, with no bytes consumed for a path id. -/
theorem C5_addpath_path_id (isIPv4 : Bool) (ap : Nat → Nat → Bool)
    (ntop : Bool → List Nat → String) (d : Nat → Nat) (len fuel pos rs : Nat)
    (nlri : ParseBgpLibNlri) (hrs : rs < len) :
    ((ap nlri.afi nlri.safi && decide (4 ≤ len - rs)) = true →
      unicastLoopF isIPv4 ap ntop d len (fuel + 1) pos rs nlri =
        uIterEntry isIPv4 ntop d (be32 d pos) (pos + 4) nlri ::
          unicastLoopF isIPv4 ap ntop d len fuel
            (pos + 4 + 1 + addrBytesOf (byte d (pos + 4)))
            (rs + 4 + addrBytesOf (byte d (pos + 4)) + 1)
            (uIterEntry isIPv4 ntop d (be32 d pos) (pos + 4) nlri)) ∧
    ((ap nlri.afi nlri.safi && decide (4 ≤ len - rs)) = false →
      unicastLoopF isIPv4 ap ntop d len (fuel + 1) pos rs nlri =
        uIterEntry isIPv4 ntop d 0 pos nlri ::
          unicastLoopF isIPv4 ap ntop d len fuel
            (pos + 1 + addrBytesOf (byte d pos))
            (rs + addrBytesOf (byte d pos) + 1)
            (uIterEntry isIPv4 ntop d 0 pos nlri)) ∧
    ((ap nlri.afi nlri.safi && decide (4 ≤ len - rs)) = true →
      labeledLoopF isIPv4 ap ntop d len (fuel + 1) pos rs nlri =
        lIterEntry isIPv4 ntop d (be32 d pos) (pos + 4) (rs + 4) nlri ::
          labeledLoopF isIPv4 ap ntop d len fuel
            ((labelLoopF d (addrBytesOf (byte d (pos + 4))) (pos + 4 + 1)
                (addrBytesOf (byte d (pos + 4))) (rs + 4) (byte d (pos + 4))
                { nlri with pathId := nlri.pathId ++ [toString (be32 d pos)] }).pos +
              (labelLoopF d (addrBytesOf (byte d (pos + 4))) (pos + 4 + 1)
                (addrBytesOf (byte d (pos + 4))) (rs + 4) (byte d (pos + 4))
                { nlri with pathId := nlri.pathId ++ [toString (be32 d pos)] }).ab)
            ((labelLoopF d (addrBytesOf (byte d (pos + 4))) (pos + 4 + 1)
                (addrBytesOf (byte d (pos + 4))) (rs + 4) (byte d (pos + 4))
                { nlri with pathId := nlri.pathId ++ [toString (be32 d pos)] }).rs +
              (labelLoopF d (addrBytesOf (byte d (pos + 4))) (pos + 4 + 1)
                (addrBytesOf (byte d (pos + 4))) (rs + 4) (byte d (pos + 4))
                { nlri with pathId := nlri.pathId ++ [toString (be32 d pos)] }).ab + 1)
            (lIterEntry isIPv4 ntop d (be32 d pos) (pos + 4) (rs + 4) nlri)) ∧
    ((ap nlri.afi nlri.safi && decide (4 ≤ len - rs)) = false →
      labeledLoopF isIPv4 ap ntop d len (fuel + 1) pos rs nlri =
        lIterEntry isIPv4 ntop d 0 pos rs nlri ::
          labeledLoopF isIPv4 ap ntop d len fuel
            ((labelLoopF d (addrBytesOf (byte d pos)) (pos + 1)
                (addrBytesOf (byte d pos)) rs (byte d pos)
                { nlri with pathId := nlri.pathId ++ [toString 0] }).pos +
              (labelLoopF d (addrBytesOf (byte d pos)) (pos + 1)
                (addrBytesOf (byte d pos)) rs (byte d pos)
                { nlri with pathId := nlri.pathId ++ [toString 0] }).ab)
            ((labelLoopF d (addrBytesOf (byte d pos)) (pos + 1)
                (addrBytesOf (byte d pos)) rs (byte d pos)
                { nlri with pathId := nlri.pathId ++ [toString 0] }).rs +
              (labelLoopF d (addrBytesOf (byte d pos)) (pos + 1)
                (addrBytesOf (byte d pos)) rs (byte d pos)
                { nlri with pathId := nlri.pathId ++ [toString 0] }).ab + 1)
            (lIterEntry isIPv4 ntop d 0 pos rs nlri)) ∧
    (uIterEntry isIPv4 ntop d (be32 d pos) (pos + 4) nlri).pathId =
      nlri.pathId ++ [toString (be32 d pos)] ∧
    (uIterEntry isIPv4 ntop d (be32 d pos) (pos + 4) nlri).prefixLength =
      nlri.prefixLength ++ [toString (byte d (pos + 4))] ∧
    (uIterEntry isIPv4 ntop d 0 pos nlri).pathId = nlri.pathId ++ ["0"] ∧
    (uIterEntry isIPv4 ntop d 0 pos nlri).prefixLength =
      nlri.prefixLength ++ [toString (byte d pos)] ∧
    (lIterEntry isIPv4 ntop d (be32 d pos) (pos + 4) (rs + 4) nlri).pathId =
      nlri.pathId ++ [toString (be32 d pos)] ∧
    (lIterEntry isIPv4 ntop d 0 pos rs nlri).pathId = nlri.pathId ++ ["0"] := by
  have hzl : ¬ (0 : Nat) = len := by omega
  refine ⟨?_, ?_, ?_, ?_, rfl, rfl, rfl, rfl, ?_, ?_⟩
  · intro hc
    rw [unicastLoopF, if_pos hrs]
    simp only [hc, if_true]
  · intro hc
    rw [unicastLoopF, if_pos hrs]
    simp only [hc, Bool.false_eq_true, if_false]
  · intro hc
    rw [labeledLoopF, if_pos hrs]
    simp only [hc, if_true, if_neg hzl]
  · intro hc
    rw [labeledLoopF, if_pos hrs]
    simp only [hc, Bool.false_eq_true, if_false, if_neg hzl]
  · obtain ⟨k, h1, h2, h3, h4, h5, h6, h7, h8, h9, h10⟩ :=
      labelLoopF_spec d (addrBytesOf (byte d (pos + 4))) (pos + 4 + 1)
        (addrBytesOf (byte d (pos + 4))) (rs + 4) (byte d (pos + 4))
        { nlri with pathId := nlri.pathId ++ [toString (be32 d pos)] }
    simp only [lIterEntry, h10.1]
  · obtain ⟨k, h1, h2, h3, h4, h5, h6, h7, h8, h9, h10⟩ :=
      labelLoopF_spec d (addrBytesOf (byte d pos)) (pos + 1)
        (addrBytesOf (byte d pos)) rs (byte d pos)
        { nlri with pathId := nlri.pathId ++ [toString 0] }
    simp only [lIterEntry, h10.1]
    rfl

/-- Witness for C5: with the capability disabled, the path id recorded by
the first unicast iteration over the body [24,192,168,1] is "0" and the
prefix-length byte is the byte at offset 0. -/
theorem C5_witness :
    (0 : Nat) < 4 ∧
    ((fun _ _ => false : Nat → Nat → Bool) (initNlri true BGP_SAFI_UNICAST).afi
      (initNlri true BGP_SAFI_UNICAST).safi && decide (4 ≤ 4 - 0)) = false ∧
    unicastLoopF true (fun _ _ => false)
        (fun v4 b => if v4 then inet_ntop4 b else ("noV6"))
        (fun i => [24, 192, 168, 1].getD i 0) 4 4 0 0 (initNlri true BGP_SAFI_UNICAST) =
      uIterEntry true (fun v4 b => if v4 then inet_ntop4 b else ("noV6"))
          (fun i => [24, 192, 168, 1].getD i 0) 0 0 (initNlri true BGP_SAFI_UNICAST) ::
        unicastLoopF true (fun _ _ => false)
          (fun v4 b => if v4 then inet_ntop4 b else ("noV6"))
          (fun i => [24, 192, 168, 1].getD i 0) 4 3
          (0 + 1 + addrBytesOf (byte (fun i => [24, 192, 168, 1].getD i 0) 0))
          (0 + addrBytesOf (byte (fun i => [24, 192, 168, 1].getD i 0) 0) + 1)
          (uIterEntry true (fun v4 b => if v4 then inet_ntop4 b else ("noV6"))
            (fun i => [24, 192, 168, 1].getD i 0) 0 0 (initNlri true BGP_SAFI_UNICAST)) :=
  ⟨by decide, by decide,
    (C5_addpath_path_id true (fun _ _ => false)
      (fun v4 b => if v4 then inet_ntop4 b else ("noV6"))
      (fun i => [24, 192, 168, 1].getD i 0) 4 3 0 0 (initNlri true BGP_SAFI_UNICAST)
      (by decide)).2.1 (by decide)⟩

lemma ipRaw16_getD (d : Nat → Nat) (s ab i : Nat) (h : i < 16) :
    (ipRaw16 d s ab).getD i 0 = if i < ab then byte d (s + i) else 0 := by
  rw [ipRaw16, List.getD_eq_getElem _ _ (by simpa using h)]
  simp

lemma inet_ntop4_zero (d : Nat → Nat) (s : Nat) :
    inet_ntop4 (ipRaw16 d s 0) = "0.0.0.0" := by
  rw [inet_ntop4, ipRaw16_getD d s 0 0 (by omega), ipRaw16_getD d s 0 1 (by omega),
    ipRaw16_getD d s 0 2 (by omega), ipRaw16_getD d s 0 3 (by omega)]
  simp only [Nat.not_lt_zero, if_false]
  rfl

/-- Claim C6: a unicast iteration (add-path disabled) consumes exactly
ceil(prefix bits / 8) address bytes — the recursion resumes addr_bytes + 1
bytes further — after copying them into a zero-initialized 16-byte buffer
whose trailing bytes stay zero; prefix length 0 consumes 0 address bytes
and renders "0.0.0.0" under IPv4 formatting, prefix length 32 consumes
exactly 4. -/
theorem C6_unicast_address_bytes (isIPv4 : Bool) (ntop6 : List Nat → String)
    (d : Nat → Nat) (len fuel pos rs : Nat) (nlri : ParseBgpLibNlri) (hrs : rs < len) :
    unicastLoopF isIPv4 (fun _ _ => false) (fun v4 b => if v4 then inet_ntop4 b else ntop6 b)
        d len (fuel + 1) pos rs nlri =
      uIterEntry isIPv4 (fun v4 b => if v4 then inet_ntop4 b else ntop6 b) d 0 pos nlri ::
        unicastLoopF isIPv4 (fun _ _ => false)
          (fun v4 b => if v4 then inet_ntop4 b else ntop6 b) d len fuel
          (pos + 1 + addrBytesOf (byte d pos)) (rs + addrBytesOf (byte d pos) + 1)
          (uIterEntry isIPv4 (fun v4 b => if v4 then inet_ntop4 b else ntop6 b) d 0 pos nlri) ∧
    addrBytesOf (byte d pos) = (byte d pos + 7) / 8 ∧
    (ipRaw16 d (pos + 1) (addrBytesOf (byte d pos))).length = 16 ∧
    (∀ i, i < 16 → (ipRaw16 d (pos + 1) (addrBytesOf (byte d pos))).getD i 0 =
      if i < addrBytesOf (byte d pos) then byte d (pos + 1 + i) else 0) ∧
    (∀ i, addrBytesOf (byte d pos) ≤ i → i < 16 →
      (ipRaw16 d (pos + 1) (addrBytesOf (byte d pos))).getD i 0 = 0) ∧
    (byte d pos = 0 → addrBytesOf (byte d pos) = 0 ∧
      (isIPv4 = true →
        (uIterEntry isIPv4 (fun v4 b => if v4 then inet_ntop4 b else ntop6 b)
          d 0 pos nlri).prefixText.getLast? = some ("0.0.0.0"))) ∧
    (byte d pos = 32 → addrBytesOf (byte d pos) = 4) := by
  have hc : ((fun _ _ => false : Nat → Nat → Bool) nlri.afi nlri.safi &&
      decide (4 ≤ len - rs)) = false := by simp
  refine ⟨?_, ?_, ?_, ?_, ?_, ?_, ?_⟩
  · rw [unicastLoopF, if_pos hrs]
    simp only [hc, Bool.false_eq_true, if_false]
  · unfold addrBytesOf
    split <;> omega
  · simp [ipRaw16]
  · intro i hi
    exact ipRaw16_getD d (pos + 1) _ i hi
  · intro i hab hi
    rw [ipRaw16_getD d (pos + 1) _ i hi, if_neg (by omega)]
  · intro h0
    have hab0 : addrBytesOf (byte d pos) = 0 := by rw [h0]; rfl
    refine ⟨hab0, fun hv4 => ?_⟩
    subst hv4
    simp only [uIterEntry, hab0]
    rw [getLast?_append_singleton]
    simp [inet_ntop4_zero]
  · intro h32
    rw [h32]
    rfl

/-- Witness for C6 at an all-zero body: prefix length 0 renders "0.0.0.0". -/
theorem C6_witness :
    (0 : Nat) < 1 ∧
    byte (fun _ => 0) 0 = 0 ∧
    (uIterEntry true (fun v4 b => if v4 then inet_ntop4 b else ("noV6"))
      (fun _ => 0) 0 0 (initNlri true BGP_SAFI_UNICAST)).prefixText.getLast? =
      some ("0.0.0.0") :=
  ⟨by decide, by decide,
    ((C6_unicast_address_bytes true (fun _ => ("noV6")) (fun _ => 0) 1 0 0 0
      (initNlri true BGP_SAFI_UNICAST) (by decide)).2.2.2.2.2.1 (by decide)).2 rfl⟩

lemma nextHop_trunc_eq (nh_len : Nat) : (if 16 < nh_len then 16 else nh_len) = min nh_len 16 := by
  split <;> omega

lemma nextHopRaw_getD (nh : Nat → Nat) (nh_len i : Nat) (h : i < 16) :
    (nextHopRaw nh nh_len).getD i 0 = if i < min nh_len 16 then byte nh i else 0 := by
  simp only [nextHopRaw, nextHop_trunc_eq]
  rw [List.getD_eq_getElem _ _ (by simpa using h)]
  simp

lemma parseAfi_IPv4IPv6_nexthop (ap : Nat → Nat → Bool) (ntop : Bool → List Nat → String)
    (isIPv4 : Bool) (nlri : MpReachNlri) (update : ParsedUpdate)
    (hsafi : nlri.safi = BGP_SAFI_UNICAST ∨ nlri.safi = BGP_SAFI_NLRI_LABEL) :
    (parseAfi_IPv4IPv6 ap ntop isIPv4 nlri update).attrs LIB_ATTR_NEXT_HOP =
      { official_type := ATTR_TYPE_NEXT_HOP
        attr_name := "nextHop"
        attr_value := (update.attrs LIB_ATTR_NEXT_HOP).attr_value ++
          [ntop isIPv4 (nextHopRaw nlri.next_hop nlri.nh_len)] } := by
  rcases hsafi with hs | hs
  · rw [parseAfi_IPv4IPv6, if_pos hs]
    simp
  · rw [parseAfi_IPv4IPv6, if_neg (by rw [hs]; decide), if_pos hs]
    simp

/-- Claim C7: for both supported SAFIs the next-hop bytes handed to text
conversion are a 16-byte zero-initialized buffer holding the first
min(nh_len, 16) next-hop bytes — lengths above 16 are truncated to 16 and
shorter next-hops leave the remaining buffer bytes zero — and the rendered
string is pushed as the next-hop attribute value. -/
theorem C7_nexthop_truncation (ap : Nat → Nat → Bool) (ntop : Bool → List Nat → String)
    (isIPv4 : Bool) (nlri : MpReachNlri) (update : ParsedUpdate)
    (hsafi : nlri.safi = BGP_SAFI_UNICAST ∨ nlri.safi = BGP_SAFI_NLRI_LABEL) :
    ((parseAfi_IPv4IPv6 ap ntop isIPv4 nlri update).attrs LIB_ATTR_NEXT_HOP).attr_value =
      (update.attrs LIB_ATTR_NEXT_HOP).attr_value ++
        [ntop isIPv4 (nextHopRaw nlri.next_hop nlri.nh_len)] ∧
    (nextHopRaw nlri.next_hop nlri.nh_len).length = 16 ∧
    (∀ i, i < min nlri.nh_len 16 →
      (nextHopRaw nlri.next_hop nlri.nh_len).getD i 0 = byte nlri.next_hop i) ∧
    (∀ i, min nlri.nh_len 16 ≤ i → i < 16 →
      (nextHopRaw nlri.next_hop nlri.nh_len).getD i 0 = 0) := by
  refine ⟨?_, ?_, ?_, ?_⟩
  · rw [parseAfi_IPv4IPv6_nexthop ap ntop isIPv4 nlri update hsafi]
  · simp [nextHopRaw]
  · intro i hi
    rw [nextHopRaw_getD _ _ _ (by omega), if_pos hi]
  · intro i hi h16
    rw [nextHopRaw_getD _ _ _ h16, if_neg (by omega)]

/-- Witness for C7: a 20-byte next-hop is truncated to its first 16 bytes
(byte 15 is kept, bytes past the buffer are dropped) and one rendered value
is appended. -/
theorem C7_witness :
    ((⟨1, 1, 20, fun _ => 7, 0, fun _ => 0, 0⟩ : MpReachNlri).safi = BGP_SAFI_UNICAST ∨
      (⟨1, 1, 20, fun _ => 7, 0, fun _ => 0, 0⟩ : MpReachNlri).safi = BGP_SAFI_NLRI_LABEL) ∧
    ((parseAfi_IPv4IPv6 (fun _ _ => false)
        (fun v4 b => if v4 then inet_ntop4 b else ("noV6")) true
        (⟨1, 1, 20, fun _ => 7, 0, fun _ => 0, 0⟩ : MpReachNlri) update0).attrs
      LIB_ATTR_NEXT_HOP).attr_value =
      (update0.attrs LIB_ATTR_NEXT_HOP).attr_value ++
        [(fun v4 b => if v4 then inet_ntop4 b else ("noV6")) true
          (nextHopRaw (fun _ => 7) 20)] ∧
    (nextHopRaw (fun _ => 7) 20).getD 15 0 = byte (fun _ => 7) 15 :=
  ⟨Or.inl rfl,
    (C7_nexthop_truncation (fun _ _ => false)
      (fun v4 b => if v4 then inet_ntop4 b else ("noV6")) true
      (⟨1, 1, 20, fun _ => 7, 0, fun _ => 0, 0⟩ : MpReachNlri) update0 (Or.inl rfl)).1,
    (C7_nexthop_truncation (fun _ _ => false)
      (fun v4 b => if v4 then inet_ntop4 b else ("noV6")) true
      (⟨1, 1, 20, fun _ => 7, 0, fun _ => 0, 0⟩ : MpReachNlri) update0 (Or.inl rfl)).2.2.1 15
      (by decide)⟩

/-- Counterexample to C8 as stated: decoding the same valid IPv4/unicast
MP_REACH attribute twice into one update leaves two strings under the
next-hop key — attr_value accumulates via push_back, it is not
overwritten. -/
theorem C8_counterexample :
    ((parseReachNlriAttr (fun _ _ => false)
        (fun v4 b => if v4 then inet_ntop4 b else ("noV6")) 9
        (fun i => [0, 1, 1, 4, 10, 0, 0, 1, 0].getD i 0)
        (parseReachNlriAttr (fun _ _ => false)
          (fun v4 b => if v4 then inet_ntop4 b else ("noV6")) 9
          (fun i => [0, 1, 1, 4, 10, 0, 0, 1, 0].getD i 0) update0)).attrs
      LIB_ATTR_NEXT_HOP).attr_value = ["10.0.0.1", "10.0.0.1"] ∧
    ¬ (((parseReachNlriAttr (fun _ _ => false)
        (fun v4 b => if v4 then inet_ntop4 b else ("noV6")) 9
        (fun i => [0, 1, 1, 4, 10, 0, 0, 1, 0].getD i 0)
        (parseReachNlriAttr (fun _ _ => false)
          (fun v4 b => if v4 then inet_ntop4 b else ("noV6")) 9
          (fun i => [0, 1, 1, 4, 10, 0, 0, 1, 0].getD i 0) update0)).attrs
      LIB_ATTR_NEXT_HOP).attr_value.length = 1) := by
  refine ⟨by decide, by decide⟩

/-- Claim C8 as amended: every decode of a supported AFI/SAFI attribute
appends exactly one rendered next-hop string to the value list under the
fixed next-hop key (overwriting the attribute's type and name); a second
MP_REACH decoded into the same update appends a second value rather than
overwriting the first. -/
theorem C8_amended_appends_value (ap : Nat → Nat → Bool) (ntop : Bool → List Nat → String)
    (attr_len : Int) (d : Nat → Nat) (update : ParsedUpdate)
    (hrem : 0 ≤ attr_len - 2 - 1 - 1 - (byte d 3 : Int) - 1)
    (hafi : byte d 0 * 256 + byte d 1 = BGP_AFI_IPV4 ∨ byte d 0 * 256 + byte d 1 = BGP_AFI_IPV6)
    (hsafi : byte d 2 = BGP_SAFI_UNICAST ∨ byte d 2 = BGP_SAFI_NLRI_LABEL) :
    ∃ s, ((parseReachNlriAttr ap ntop attr_len d update).attrs LIB_ATTR_NEXT_HOP).attr_value =
        (update.attrs LIB_ATTR_NEXT_HOP).attr_value ++ [s] ∧
      ((parseReachNlriAttr ap ntop attr_len d update).attrs LIB_ATTR_NEXT_HOP).attr_name =
        "nextHop" ∧
      ((parseReachNlriAttr ap ntop attr_len d update).attrs LIB_ATTR_NEXT_HOP).official_type =
        ATTR_TYPE_NEXT_HOP := by
  simp only [parseReachNlriAttr]
  rw [if_neg (by omega)]
  rcases hafi with ha | ha
  · rw [parseAfi, if_neg (by simp only [ha]; decide), if_pos (by simp only [ha])]
    refine ⟨ntop true (nextHopRaw (fun i => d (4 + i)) (byte d 3)), ?_⟩
    have h := parseAfi_IPv4IPv6_nexthop ap ntop true
      ⟨byte d 0 * 256 + byte d 1, byte d 2, byte d 3, fun i => d (4 + i), byte d (4 + byte d 3),
        fun i => d (5 + byte d 3 + i),
        (attr_len - 2 - 1 - 1 - (byte d 3 : Int) - 1).toNat % 65536⟩ update hsafi
    rw [h]
    exact ⟨by simp, rfl, rfl⟩
  · rw [parseAfi, if_pos (by simp only [ha])]
    refine ⟨ntop false (nextHopRaw (fun i => d (4 + i)) (byte d 3)), ?_⟩
    have h := parseAfi_IPv4IPv6_nexthop ap ntop false
      ⟨byte d 0 * 256 + byte d 1, byte d 2, byte d 3, fun i => d (4 + i), byte d (4 + byte d 3),
        fun i => d (5 + byte d 3 + i),
        (attr_len - 2 - 1 - 1 - (byte d 3 : Int) - 1).toNat % 65536⟩ update hsafi
    rw [h]
    exact ⟨by simp, rfl, rfl⟩

/-- Witness for the amended C8: the spec's example attribute appends exactly
one value to an empty update's next-hop attribute. -/
theorem C8_witness :
    (0 : Int) ≤ 9 - 2 - 1 - 1 -
      (byte (fun i => [0, 1, 1, 4, 10, 0, 0, 1, 0].getD i 0) 3 : Int) - 1 ∧
    byte (fun i => [0, 1, 1, 4, 10, 0, 0, 1, 0].getD i 0) 0 * 256 +
      byte (fun i => [0, 1, 1, 4, 10, 0, 0, 1, 0].getD i 0) 1 = BGP_AFI_IPV4 ∧
    byte (fun i => [0, 1, 1, 4, 10, 0, 0, 1, 0].getD i 0) 2 = BGP_SAFI_UNICAST ∧
    ∃ s, ((parseReachNlriAttr (fun _ _ => false)
        (fun v4 b => if v4 then inet_ntop4 b else ("noV6")) 9
        (fun i => [0, 1, 1, 4, 10, 0, 0, 1, 0].getD i 0) update0).attrs
      LIB_ATTR_NEXT_HOP).attr_value =
      (update0.attrs LIB_ATTR_NEXT_HOP).attr_value ++ [s] := by
  refine ⟨by decide, by decide, by decide, ?_⟩
  obtain ⟨s, h1, h2, h3⟩ := C8_amended_appends_value (fun _ _ => false)
    (fun v4 b => if v4 then inet_ntop4 b else ("noV6")) 9
    (fun i => [0, 1, 1, 4, 10, 0, 0, 1, 0].getD i 0) update0
    (by decide) (by decide) (by decide)
  exact ⟨s, h1⟩

/-- Claim C9: each loop iteration consumes at least one byte, so fuel equal
to the declared length never cuts a run short (any larger fuel computes the
same entry list) and the number of entries either decoder produces is
bounded by the declared attribute length. -/
theorem C9_decode_bounded (isIPv4 : Bool) (ap : Nat → Nat → Bool)
    (ntop : Bool → List Nat → String) (d : Nat → Nat) (len fuel : Nat) (hfuel : len ≤ fuel) :
    unicastLoopF isIPv4 ap ntop d len fuel 0 0 (initNlri isIPv4 BGP_SAFI_UNICAST) =
      parseNlriData_IPv4IPv6 isIPv4 ap ntop d len ∧
    (parseNlriData_IPv4IPv6 isIPv4 ap ntop d len).length ≤ len ∧
    labeledLoopF isIPv4 ap ntop d len fuel 0 0 (initNlri isIPv4 BGP_SAFI_NLRI_LABEL) =
      parseNlriData_LabelIPv4IPv6 isIPv4 ap ntop d len ∧
    (parseNlriData_LabelIPv4IPv6 isIPv4 ap ntop d len).length ≤ len := by
  refine ⟨?_, ?_, ?_, ?_⟩
  · rw [parseNlriData_IPv4IPv6]
    by_cases hz : len = 0
    · rw [if_pos hz]
      subst hz
      cases fuel with
      | zero => rfl
      | succ n => simp [unicastLoopF]
    · rw [if_neg hz]
      exact unicastLoopF_fuel_irrel isIPv4 ap ntop d len fuel len 0 0 _ (by omega) (by omega)
  · rw [parseNlriData_IPv4IPv6]
    by_cases hz : len = 0
    · rw [if_pos hz]
      simp [hz]
    · rw [if_neg hz]
      have := unicastLoopF_length isIPv4 ap ntop d len len 0 0 (initNlri isIPv4 BGP_SAFI_UNICAST)
      omega
  · rw [parseNlriData_LabelIPv4IPv6]
    by_cases hz : len = 0
    · rw [if_pos hz]
      subst hz
      cases fuel with
      | zero => rfl
      | succ n => simp [labeledLoopF]
    · rw [if_neg hz]
      exact labeledLoopF_fuel_irrel isIPv4 ap ntop d len fuel len 0 0 _ (by omega) (by omega)
  · rw [parseNlriData_LabelIPv4IPv6]
    by_cases hz : len = 0
    · rw [if_pos hz]
      simp [hz]
    · rw [if_neg hz]
      have := labeledLoopF_length isIPv4 ap ntop d len len 0 0
        (initNlri isIPv4 BGP_SAFI_NLRI_LABEL)
      omega

/-- Witness for C9 on the spec's example body: one prefix from four bytes,
and extra fuel changes nothing. -/
theorem C9_witness :
    (4 : Nat) ≤ 9 ∧
    (parseNlriData_IPv4IPv6 true (fun _ _ => false)
      (fun v4 b => if v4 then inet_ntop4 b else ("noV6"))
      (fun i => [24, 192, 168, 1].getD i 0) 4).length ≤ 4 :=
  ⟨by decide,
    (C9_decode_bounded true (fun _ _ => false)
      (fun v4 b => if v4 then inet_ntop4 b else ("noV6"))
      (fun i => [24, 192, 168, 1].getD i 0) 4 9 (by decide)).2.1⟩

lemma unicastLoopF_pathId_len (isIPv4 : Bool) (ap : Nat → Nat → Bool)
    (ntop : Bool → List Nat → String) (d : Nat → Nat) (len : Nat) :
    ∀ fuel pos rs nlri j, j < (unicastLoopF isIPv4 ap ntop d len fuel pos rs nlri).length →
      ((unicastLoopF isIPv4 ap ntop d len fuel pos rs nlri).getD j default).pathId.length =
        nlri.pathId.length + j + 1 := by
  intro fuel
  induction fuel with
  | zero => intro pos rs nlri j hj; simp [unicastLoopF] at hj
  | succ n ih =>
    intro pos rs nlri j hj
    by_cases hrs : rs < len
    · obtain ⟨e1, pos2, rs2, hstep, -, -, -, -, -, -, hlen1⟩ :=
        unicastLoopF_step_ex isIPv4 ap ntop d len pos rs nlri hrs
      rw [hstep n] at hj ⊢
      cases j with
      | zero => simpa using hlen1
      | succ j' =>
        rw [List.getD_cons_succ]
        have := ih pos2 rs2 e1 j' (by simpa using hj)
        omega
    · rw [unicastLoopF, if_neg hrs] at hj
      simp at hj

lemma labeledLoopF_pathId_len (isIPv4 : Bool) (ap : Nat → Nat → Bool)
    (ntop : Bool → List Nat → String) (d : Nat → Nat) (len : Nat) :
    ∀ fuel pos rs nlri j, j < (labeledLoopF isIPv4 ap ntop d len fuel pos rs nlri).length →
      ((labeledLoopF isIPv4 ap ntop d len fuel pos rs nlri).getD j default).pathId.length =
        nlri.pathId.length + j + 1 := by
  intro fuel
  induction fuel with
  | zero => intro pos rs nlri j hj; simp [labeledLoopF] at hj
  | succ n ih =>
    intro pos rs nlri j hj
    by_cases hrs : rs < len
    · obtain ⟨e1, pos2, rs2, hstep, -, -, -, -, -, -, hlen1⟩ :=
        labeledLoopF_step_ex isIPv4 ap ntop d len pos rs nlri hrs
      rw [hstep n] at hj ⊢
      cases j with
      | zero => simpa using hlen1
      | succ j' =>
        rw [List.getD_cons_succ]
        have := ih pos2 rs2 e1 j' (by simpa using hj)
        omega
    · rw [labeledLoopF, if_neg hrs] at hj
      simp at hj

lemma chain'_cons_getD {R : ParseBgpLibNlri → ParseBgpLibNlri → Prop}
    {a : ParseBgpLibNlri} {l : List ParseBgpLibNlri}
    (h : List.Chain' R (a :: l)) (i : Nat) (hi : i + 1 < l.length) :
    R (l.getD i default) (l.getD (i + 1) default) := by
  rw [List.chain'_iff_get] at h
  have := h (i + 1) (by simp; omega)
  simp only [List.get_cons_succ] at this
  rw [List.getD_eq_getElem _ _ (by omega), List.getD_eq_getElem _ _ hi]
  simpa using this

/-- Claim C10: one working entry record is reused across prefix-loop
iterations without clearing, so in either decoder's output each per-field
list (path ids, prefix lengths, prefix texts, binary prefixes, labels) of
entry i is a prefix of the corresponding list of entry i+1, and the i-th
entry carries i+1 accumulated path identifiers. -/
theorem C10_entry_accumulation (isIPv4 : Bool) (ap : Nat → Nat → Bool)
    (ntop : Bool → List Nat → String) (d : Nat → Nat) (len : Nat) :
    (∀ i, i + 1 < (parseNlriData_IPv4IPv6 isIPv4 ap ntop d len).length →
      entryExtends ((parseNlriData_IPv4IPv6 isIPv4 ap ntop d len).getD i default)
        ((parseNlriData_IPv4IPv6 isIPv4 ap ntop d len).getD (i + 1) default)) ∧
    (∀ i, i < (parseNlriData_IPv4IPv6 isIPv4 ap ntop d len).length →
      ((parseNlriData_IPv4IPv6 isIPv4 ap ntop d len).getD i default).pathId.length = i + 1) ∧
    (∀ i, i + 1 < (parseNlriData_LabelIPv4IPv6 isIPv4 ap ntop d len).length →
      entryExtends ((parseNlriData_LabelIPv4IPv6 isIPv4 ap ntop d len).getD i default)
        ((parseNlriData_LabelIPv4IPv6 isIPv4 ap ntop d len).getD (i + 1) default)) ∧
    (∀ i, i < (parseNlriData_LabelIPv4IPv6 isIPv4 ap ntop d len).length →
      ((parseNlriData_LabelIPv4IPv6 isIPv4 ap ntop d len).getD i default).pathId.length =
        i + 1) := by
  refine ⟨?_, ?_, ?_, ?_⟩
  · intro i hi
    rw [parseNlriData_IPv4IPv6] at hi ⊢
    by_cases hz : len = 0
    · rw [if_pos hz] at hi
      simp at hi
    · rw [if_neg hz] at hi ⊢
      exact chain'_cons_getD (unicastLoopF_chain isIPv4 ap ntop d len len 0 0 _) i hi
  · intro i hi
    rw [parseNlriData_IPv4IPv6] at hi ⊢
    by_cases hz : len = 0
    · rw [if_pos hz] at hi
      simp at hi
    · rw [if_neg hz] at hi ⊢
      have := unicastLoopF_pathId_len isIPv4 ap ntop d len len 0 0
        (initNlri isIPv4 BGP_SAFI_UNICAST) i hi
      simpa [initNlri] using this
  · intro i hi
    rw [parseNlriData_LabelIPv4IPv6] at hi ⊢
    by_cases hz : len = 0
    · rw [if_pos hz] at hi
      simp at hi
    · rw [if_neg hz] at hi ⊢
      exact chain'_cons_getD (labeledLoopF_chain isIPv4 ap ntop d len len 0 0 _) i hi
  · intro i hi
    rw [parseNlriData_LabelIPv4IPv6] at hi ⊢
    by_cases hz : len = 0
    · rw [if_pos hz] at hi
      simp at hi
    · rw [if_neg hz] at hi ⊢
      have := labeledLoopF_pathId_len isIPv4 ap ntop d len len 0 0
        (initNlri isIPv4 BGP_SAFI_NLRI_LABEL) i hi
      simpa [initNlri] using this

/-- Witness for C10: the two-prefix unicast body [0,0] yields two entries,
with the first entry's field lists prefixes of the second's. -/
theorem C10_witness :
    0 + 1 < (parseNlriData_IPv4IPv6 true (fun _ _ => false)
      (fun v4 b => if v4 then inet_ntop4 b else ("noV6")) (fun _ => 0) 2).length ∧
    entryExtends
      ((parseNlriData_IPv4IPv6 true (fun _ _ => false)
        (fun v4 b => if v4 then inet_ntop4 b else ("noV6")) (fun _ => 0) 2).getD 0 default)
      ((parseNlriData_IPv4IPv6 true (fun _ _ => false)
        (fun v4 b => if v4 then inet_ntop4 b else ("noV6")) (fun _ => 0) 2).getD 1 default) :=
  ⟨by decide,
    (C10_entry_accumulation true (fun _ _ => false)
      (fun v4 b => if v4 then inet_ntop4 b else ("noV6")) (fun _ => 0) 2).1 0 (by decide)⟩
